import Mathlib

/-!
Verification development for the `Parameters` engine of python-parampy
(`src/parameters/parameters.py`).

The engine is shallowly embedded: Python dicts become association lists
(with a fixed iteration order, refining CPython's arbitrary dict order),
Python numerics (int/float) become exact rationals `Flt` (a pair of
integers compared by cross multiplication; IEEE rounding is out of scope),
exceptions become `Except Err`, and the mutable `Parameters` object becomes
an explicit state record `Params` threaded through every operation (an
exception does not roll the state back, as in Python).  The unit/quantity
collaborators (`units.py`, `quantities.py`, `definitions.py`) are not part
of the repository sources; they are modelled at the interface boundary the
spec gives them in section 6: a unit is a dimension vector plus a relative
scale, `Units.scale u v` is the factor converting a magnitude in `u` to one
in `v`, and the SI dispenser knows a small catalogue of units.  Recursive
evaluation is expressed with explicit fuel; running out of fuel is a
distinguished error that the real (unfueled) Python program can never
produce, so "the code loops forever" is modelled as "every fuel amount
returns the fuel error".
-/

namespace Parampy

/-- Exact rational model of Python int/float values: numerator and
denominator, never normalised, compared numerically by cross
multiplication. -/
structure Flt where
  num : Int
  den : Int
deriving DecidableEq

instance (n : Nat) : OfNat Flt n := ⟨⟨Int.ofNat n, 1⟩⟩

/-- Numeric (Python `==`) equality of two `Flt`s. -/
def qeqb (a b : Flt) : Bool := a.num * b.den == b.num * a.den

def qadd (a b : Flt) : Flt := ⟨a.num * b.den + b.num * a.den, a.den * b.den⟩

def qmul (a b : Flt) : Flt := ⟨a.num * b.num, a.den * b.den⟩

def qdiv (a b : Flt) : Flt := ⟨a.num * b.den, a.den * b.num⟩

def qinv (a : Flt) : Flt := ⟨a.den, a.num⟩

def qpow (a : Flt) : Nat → Flt
  | 0 => 1
  | n+1 => qmul a (qpow a n)

/-- Power with an integer exponent (used for dimension exponents). -/
def qzpow (a : Flt) (n : Int) : Flt :=
  if 0 ≤ n then qpow a n.toNat else qpow (qinv a) (-n).toNat

/-- A dimension vector: dimension name to integer exponent, as a Python
dict (association list, no duplicate keys in any value the engine builds). -/
abbrev DimVec : Type := List (String × Int)

def dvLookup (d : DimVec) (k : String) : Option Int :=
  match d with
  | [] => none
  | (k1, v) :: rest => if k1 = k then some v else dvLookup rest k

/-- Python dict equality on dimension vectors: the same keys mapped to the
same exponents. -/
def dvEqb (a b : DimVec) : Bool :=
  a.all (fun p => dvLookup b p.1 == some p.2) &&
    b.all (fun p => dvLookup a p.1 == some p.2)

/-- Add an exponent for one dimension into a vector, dropping the entry
when the sum is zero (the collaborator keeps vectors zero free). -/
def dvAddOne (d : DimVec) (k : String) (n : Int) : DimVec :=
  match d with
  | [] => if n == 0 then [] else [(k, n)]
  | (k1, v) :: rest =>
    if k1 = k then (if v + n == 0 then rest else (k1, v + n) :: rest)
    else (k1, v) :: dvAddOne rest k n

def dvMerge (a b : DimVec) : DimVec :=
  match b with
  | [] => a
  | (k, n) :: rest => dvMerge (dvAddOne a k n) rest

def dvScale (a : DimVec) (n : Int) : DimVec :=
  if n == 0 then [] else a.map (fun p => (p.1, p.2 * n))

/-- Interface model of the external `Units` collaborator: a dimension
vector plus the scale of the unit relative to the SI basis of its
dimensions. -/
structure Units where
  dims : DimVec
  rel : Flt
deriving DecidableEq

/-- Python equality of two units (value semantics on the interface model). -/
def unitEqb (u v : Units) : Bool := dvEqb u.dims v.dims && qeqb u.rel v.rel

/-- `u.scale v`: the factor converting a magnitude expressed in `u` into
one expressed in `v` (valid for matching dimension vectors). -/
def Units.scale (u v : Units) : Flt := qdiv u.rel v.rel

def Units.mulU (u v : Units) : Units := ⟨dvMerge u.dims v.dims, qmul u.rel v.rel⟩

def Units.zpowU (u : Units) (n : Int) : Units := ⟨dvScale u.dims n, qzpow u.rel n⟩

/-- The dimensionless unit (Python `self.__units.get('')`). -/
def constantUnit : Units := ⟨[], 1⟩

/-- Interface model of the SI dispenser's `get`: the catalogue of unit
names the development needs; unknown names fail as the real dispenser
does. -/
def SIget : String → Option Units
  | "" => some constantUnit
  | "m" => some ⟨[("length", 1)], 1⟩
  | "s" => some ⟨[("time", 1)], 1⟩
  | "ms" => some ⟨[("time", 1)], ⟨1, 1000⟩⟩
  | "kg" => some ⟨[("mass", 1)], 1⟩
  | _ => none

/-- Interface model of the dispenser's `basis()` lookup for one dimension. -/
def SIbasis : String → Option Units
  | "length" => some ⟨[("length", 1)], 1⟩
  | "time" => some ⟨[("time", 1)], 1⟩
  | "mass" => some ⟨[("mass", 1)], 1⟩
  | _ => none

/-- The dispenser's dimension names (`self.__units.dimensions`). -/
def SIdimensions : List String := ["length", "time", "mass"]

/-- Interface model of the external `Quantity` collaborator: a magnitude
and a unit. -/
structure Quantity where
  value : Flt
  units : Units
deriving DecidableEq

def Quantity.mulQ (a b : Quantity) : Quantity :=
  ⟨qmul a.value b.value, a.units.mulU b.units⟩

def Quantity.zpowQ (a : Quantity) (n : Int) : Quantity :=
  ⟨qzpow a.value n, a.units.zpowU n⟩

/-- Python equality of two quantities on the interface model: numerically
equal magnitudes in the structurally same unit. -/
def quantEqb (a b : Quantity) : Bool := qeqb a.value b.value && unitEqb a.units b.units

/-- The exceptions the engine raises.  Constructors that interpolate a
parameter name into the Python message carry that name. -/
inductive Err where
  /-- `ValueError: parameter %s overspecified, with contradictory values` -/
  | overspecified (param : String)
  /-- `ValueError: Configuration requiring the inverting of a non-invertable map for %s` -/
  | nonInvertible (param : String)
  /-- `KeyError: Attempt to set invalid parameters: %s ...` -/
  | invalidParams (names : List String)
  /-- `ValueError: Could not add parameter %s. %s` -/
  | couldNotAdd (param : String) (e : Err)
  /-- `ValueError: Adding function would result in recursion with function %s` -/
  | recursion (arg : String)
  /-- The bare `ValueError` for a (value, unit) tuple that is not a pair. -/
  | malformed
  /-- `ValueError: No coercion for %s to WorkingUnit` and failures of the
  external Quantity constructor. -/
  | noCoercion (unit : String)
  /-- The `KeyError` for a name with no parameter and no interpretation, and
  for a missing dictionary key. -/
  | notFound (name : String)
  /-- The `ValueError` of `__eval`'s symbolic branch for a bare unknown name. -/
  | noInterpretation (name : String)
  /-- A Python TypeError/AttributeError/IndexError (not caught by the
  `except ValueError` handlers). -/
  | typeError
  /-- Failure reported by the external sympy collaborator. -/
  | symErr (msg : String)
  /-- Fuel exhaustion of the recursive evaluator (a modelling artifact). -/
  | fuelEval
  /-- Fuel exhaustion of the `__process_override` pass recursion. -/
  | fuelPass
  /-- Fuel exhaustion of the `__check_function` recursion. -/
  | fuelChk
deriving DecidableEq

/-- Which of the model's errors are Python `ValueError`s (the only class
`__set` catches and re-raises as `couldNotAdd`). -/
def Err.isValueError : Err → Bool
  | .overspecified _ => true
  | .nonInvertible _ => true
  | .couldNotAdd _ _ => true
  | .recursion _ => true
  | .malformed => true
  | .noCoercion _ => true
  | .noInterpretation _ => true
  | _ => false

/-- First-order Python values: what a parameter function receives as an
argument and may return (numbers, quantities, strings, tuples thereof). -/
inductive Val where
  | numV (x : Flt)
  | quantV (q : Quantity)
  | strV (s : String)
  | tupV (xs : List Val)

/-- A Python function object: its `inspect.getargspec` argument names and
its body, taking the positional arguments. -/
structure VFunc where
  args : List String
  body : List Val → Except Err Val

/-- A Python value as it appears in an override set or an assignment batch:
a first-order value, a function object, or a tuple that may contain a
function in head position (the `(function, unit)` form of `__set`). -/
inductive PyVal where
  | numP (x : Flt)
  | quantP (q : Quantity)
  | strP (s : String)
  | funcP (f : VFunc)
  | tupP (xs : List PyVal)

mutual

/-- Embed a first-order value. -/
def Val.toPy : Val → PyVal
  | .numV x => .numP x
  | .quantV q => .quantP q
  | .strV s => .strP s
  | .tupV xs => .tupP (Val.toPyList xs)

/-- Embed the components of a tuple value. -/
def Val.toPyList : List Val → List PyVal
  | [] => []
  | x :: xs => Val.toPy x :: Val.toPyList xs

end

mutual

/-- Strip a `PyVal` back to a first-order value; a function object anywhere
inside has no first-order image. -/
def PyVal.toVal : PyVal → Option Val
  | .numP x => some (.numV x)
  | .quantP q => some (.quantV q)
  | .strP s => some (.strV s)
  | .funcP _ => none
  | .tupP xs => (PyVal.toValList xs).map Val.tupV

/-- Strip every component of a tuple. -/
def PyVal.toValList : List PyVal → Option (List Val)
  | [] => some []
  | x :: xs =>
    match PyVal.toVal x, PyVal.toValList xs with
    | some v, some vs => some (v :: vs)
    | _, _ => none

end

mutual

/-- Python `!=`'s complement on the values the override machinery compares:
numbers numerically, quantities by magnitude and unit, tuples pointwise.  A
function object is equal only to itself by identity, which a pure model
cannot witness, so functions compare unequal. -/
def pyEqb : PyVal → PyVal → Bool
  | .numP a, .numP b => qeqb a b
  | .quantP a, .quantP b => quantEqb a b
  | .strP a, .strP b => a == b
  | .tupP a, .tupP b => pyEqbList a b
  | _, _ => false

/-- Pointwise `pyEqb` over tuple components. -/
def pyEqbList : List PyVal → List PyVal → Bool
  | [], [] => true
  | a :: as1, b :: bs1 => pyEqb a b && pyEqbList as1 bs1
  | _, _ => false

end

/-- A stored parameter value (`self.__parameters[param]`): `__set` stores
either a `Quantity` or a function object. -/
inductive SVal where
  | qS (q : Quantity)
  | fS (f : VFunc)

/-- An argument to `__get_param`/`__eval`: a parameter-name string (possibly
an expression string) or a function object. -/
inductive OArg where
  | nameA (s : String)
  | funcA (f : VFunc)

/-- Association lists standing for Python dicts keyed by strings. -/
abbrev AList (α : Type) : Type := List (String × α)

def alookup {α : Type} (l : AList α) (k : String) : Option α :=
  match l with
  | [] => none
  | (k1, v) :: rest => if k1 = k then some v else alookup rest k

def acontains {α : Type} (l : AList α) (k : String) : Bool := (alookup l k).isSome

def akeys {α : Type} (l : AList α) : List String := l.map Prod.fst

/-- `d[k] = v`: replace the first binding of `k` in place, else append. -/
def aset {α : Type} (l : AList α) (k : String) (v : α) : AList α :=
  match l with
  | [] => [(k, v)]
  | (k1, v1) :: rest =>
    if k1 = k then (k1, v) :: rest else (k1, v1) :: aset rest k v

/-- `del d[k]`: drop every binding of `k`. -/
def adel {α : Type} (l : AList α) (k : String) : AList α :=
  l.filter (fun p => ¬ (p.1 = k))

/-- `d.update(m)`: fold `aset` over the entries of `m` in order. -/
def aupdate {α : Type} (l m : AList α) : AList α :=
  match m with
  | [] => l
  | (k, v) :: rest => aupdate (aset l k v) rest

/-- Interface model of the external sympy collaborator (spec section 6):
compiling a string expression to a function, and evaluating a string
expression given a resolver for its free symbols.  The engine only pipes
values through these capabilities. -/
structure SymEnv where
  toFunction : String → Except Err VFunc
  evalExpr : String → AList PyVal → Except Err Val

/-- The state of one `Parameters` instance (the fields its `__init__`
creates; the dispenser and custom-unit list are fixed to the SI interface
model). -/
structure Params where
  parameters_spec : AList Units
  parameters : AList SVal
  scalings : AList Quantity
  unit_scalings : List (DimVec × Flt)
  scaling_cache : List (Units × Flt)
  default_scaled : Bool
  sym : SymEnv

/-- The engine's effect monad: an explicit `Params` state with Python
exceptions.  An error keeps the state reached so far, as a raised Python
exception does. -/
def M (α : Type) : Type := Params → Except Err α × Params

def mpure {α : Type} (a : α) : M α := fun P => (Except.ok a, P)

def mbind {α β : Type} (m : M α) (k : α → M β) : M β := fun P =>
  match m P with
  | (Except.ok a, P1) => k a P1
  | (Except.error e, P1) => (Except.error e, P1)

instance : Monad M where
  pure := mpure
  bind := mbind

def mthrow {α : Type} (e : Err) : M α := fun P => (Except.error e, P)

def mgetState : M Params := fun P => (Except.ok P, P)

def mmodifyState (f : Params → Params) : M Unit := fun P => (Except.ok (), f P)

/-- Lift a pure `Except` computation into the monad. -/
def mliftE {α : Type} (x : Except Err α) : M α := fun P => (x, P)

@[simp] theorem mbind_applied {α β : Type} (m : M α) (k : α → M β) (P : Params) :
    mbind m k P =
      match m P with
      | (Except.ok a, P1) => k a P1
      | (Except.error e, P1) => (Except.error e, P1) := rfl

@[simp] theorem bind_eq_mbind {α β : Type} (m : M α) (k : α → M β) :
    m >>= k = mbind m k := rfl

@[simp] theorem pure_eq_mpure {α : Type} (a : α) :
    (pure a : M α) = mpure a := rfl

@[simp] theorem mpure_applied {α : Type} (a : α) (P : Params) :
    mpure a P = (Except.ok a, P) := rfl

@[simp] theorem mthrow_applied {α : Type} (e : Err) (P : Params) :
    mthrow (α := α) e P = (Except.error e, P) := rfl

@[simp] theorem mgetState_applied (P : Params) : mgetState P = (Except.ok P, P) := rfl

@[simp] theorem mmodifyState_applied (f : Params → Params) (P : Params) :
    mmodifyState f P = (Except.ok (), f P) := rfl

@[simp] theorem mliftE_applied {α : Type} (x : Except Err α) (P : Params) :
    mliftE x P = (x, P) := rfl

/-- A unit reference as `__get_unit` accepts one: a name string or a
`Units` object. -/
inductive URef where
  | strU (s : String)
  | unitU (u : Units)

/-- `__get_unit`: coerce a string (through the dispenser) or a `Units`
object to a unit. -/
def get_unit : URef → Except Err Units
  | .strU s =>
    match SIget s with
    | some u => Except.ok u
    | none => Except.error (Err.noCoercion s)
  | .unitU u => Except.ok u

/-- `__unit_scale`: the first entry of `self.__unit_scalings` whose
dimension vector equals the unit's, else `1.0`. -/
def unit_scale_list (l : List (DimVec × Flt)) (unit : Units) : Flt :=
  match l with
  | [] => 1
  | (dv, f) :: rest => if dvEqb dv unit.dims then f else unit_scale_list rest unit

def unit_scale (P : Params) (unit : Units) : Flt :=
  unit_scale_list P.unit_scalings unit

/-- The loop of `__basis_scale`: multiply `scaling` by
`self.__scalings.get(dim, Quantity(1, basis()[dim])) ** power` for each
dimension of the unit. -/
def basis_scale_list (P : Params) (dims : List (String × Int)) (acc : Quantity) :
    Except Err Quantity :=
  match dims with
  | [] => Except.ok acc
  | (dim, power) :: rest =>
    match alookup P.scalings dim with
    | some q => basis_scale_list P rest (acc.mulQ (q.zpowQ power))
    | none =>
      match SIbasis dim with
      | some u => basis_scale_list P rest (acc.mulQ ((Quantity.mk 1 u).zpowQ power))
      | none => Except.error (Err.notFound dim)

/-- `__basis_scale`. -/
def basis_scale (P : Params) (unit : Units) : Except Err Quantity :=
  basis_scale_list P unit.dims ⟨1, constantUnit⟩

/-- Lookup in the scaling cache by Python unit equality. -/
def cache_lookup (c : List (Units × Flt)) (unit : Units) : Option Flt :=
  match c with
  | [] => none
  | (u, s) :: rest => if unitEqb u unit then some s else cache_lookup rest unit

/-- The scaling factor as `__unit_scaling` computes it when the cache
misses: `basis_scale(unit).value * basis_scale(unit).units.scale(unit) /
unit_scale(unit)`.  Pure in the scaling tables; used to state cache
freshness. -/
def unit_scaling_calc (P : Params) (unit : Units) : Except Err Flt :=
  match basis_scale P unit with
  | Except.error e => Except.error e
  | Except.ok scale =>
    Except.ok (qdiv (qmul scale.value (scale.units.scale unit)) (unit_scale P unit))

/-- `__unit_scaling`: answer from the cache when possible, otherwise
compute the factor and memoise it. -/
def unit_scaling (unit : Units) : M Flt := fun P =>
  match cache_lookup P.scaling_cache unit with
  | some s => (Except.ok s, P)
  | none =>
    match unit_scaling_calc P unit with
    | Except.error e => (Except.error e, P)
    | Except.ok scaling =>
      (Except.ok scaling, { P with scaling_cache := P.scaling_cache ++ [(unit, scaling)] })

/-- Interface model of the external Quantity constructor from a
`(magnitude, unit)` pair. -/
def quantity_ctor (mag unit : PyVal) : Except Err Quantity :=
  match mag, unit with
  | .numP x, .strP s =>
    match SIget s with
    | some u => Except.ok ⟨x, u⟩
    | none => Except.error (Err.noCoercion s)
  | _, _ => Except.error (Err.noCoercion "")

/-- The common tail of `__get_quantity`: return the quantity, or its value
divided by the unit scaling when a scaled result is requested. -/
def get_quantity_tail (q : Quantity) (scaled : Bool) : M PyVal :=
  if scaled then
    mbind (unit_scaling q.units) (fun s => mpure (PyVal.numP (qdiv q.value s)))
  else mpure (PyVal.quantP q)

/-- `__get_quantity(value, param, unit, scaled)`. -/
def get_quantity (value : PyVal) (param : Option String) (unit : Option URef)
    (scaled : Bool) : M PyVal :=
  match value with
  | .tupP xs =>
    match xs with
    | [a, b] => mbind (mliftE (quantity_ctor a b)) (fun q => get_quantity_tail q scaled)
    | _ => mthrow Err.malformed
  | .quantP q => get_quantity_tail q scaled
  | .funcP f => if scaled then mthrow Err.typeError else mpure (PyVal.funcP f)
  | .strP _ => mthrow Err.typeError
  | .numP x =>
    mbind mgetState (fun P =>
      mbind (mliftE (match unit, param with
        | none, none => get_unit (URef.strU "")
        | some u, _ => get_unit u
        | none, some p =>
          match alookup P.parameters_spec p with
          | none => get_unit (URef.strU "")
          | some su => get_unit (URef.unitU su)))
        (fun u =>
          mbind (unit_scaling u) (fun s => get_quantity_tail ⟨qmul x s, u⟩ scaled)))

/-- The argument of `__scaling_set` (Python passes a dict for basis
scalings or a pair for a unit-scaling entry). -/
inductive ScalingArg where
  | dictS (d : AList PyVal)
  | pairS (dv : DimVec) (f : Flt)

/-- The per-dimension loop of `__scaling_set`'s dict branch. -/
def scaling_set_list (items : List (String × PyVal)) : M Unit :=
  match items with
  | [] => mpure ()
  | (arg, v) :: rest =>
    if arg ∈ SIdimensions then
      mbind (get_quantity v (some arg) none false) (fun q =>
        match q with
        | .quantP qq =>
          if dvEqb qq.units.dims [(arg, 1)] then
            mbind (mmodifyState (fun P => { P with scalings := aset P.scalings arg qq }))
              (fun _ => scaling_set_list rest)
          else scaling_set_list rest
        | _ => mthrow Err.typeError)
    else scaling_set_list rest

/-- `__scaling_set`: clear the scaling cache, then install basis scalings
(dict) or append a unit scaling (pair). -/
def scaling_set (arg : ScalingArg) : M Unit :=
  mbind (mmodifyState (fun P => { P with scaling_cache := [] })) (fun _ =>
    match arg with
    | .dictS d => scaling_set_list d
    | .pairS dv f =>
      mmodifyState (fun P => { P with unit_scalings := P.unit_scalings ++ [(dv, f)] }))

/-- `convert(quantity, input, output)`. -/
def convert (value : PyVal) (input output : Option String) : M PyVal :=
  match input, output with
  | none, none => mpure value
  | some inp, none =>
    mbind (mliftE (get_unit (URef.strU inp))) (fun u =>
      mbind (unit_scaling u) (fun s =>
        match value with
        | .numP x => mpure (PyVal.numP (qdiv x s))
        | .quantP q => mpure (PyVal.quantP ⟨qdiv q.value s, q.units⟩)
        | _ => mthrow Err.typeError))
  | none, some outp => get_quantity value none (some (URef.strU outp)) false
  | some inp, some outp =>
    mbind (mliftE (get_unit (URef.strU inp))) (fun u =>
      mbind (mliftE (get_unit (URef.strU outp))) (fun v =>
        match value with
        | .numP x => mpure (PyVal.quantP ⟨qmul x (u.scale v), v⟩)
        | _ => mthrow Err.typeError))

/-- Python's `param[:1] == "_"` test: does the string start with an
underscore. -/
def headUnderscore (s : String) : Bool :=
  match s.data with
  | c :: _ => c = '_'
  | [] => false

/-- `__get_pam_name` on a string: strip one leading underscore. -/
def get_pam_name (s : String) : String :=
  if headUnderscore s then s.drop 1 else s

/-- One character of `[_A-Za-z]`. -/
def isIdentStart (c : Char) : Bool :=
  (('A' ≤ c && c ≤ 'Z') || ('a' ≤ c && c ≤ 'z') || c = '_')

/-- One character of `[_a-zA-Z0-9]`. -/
def isIdentRest (c : Char) : Bool :=
  isIdentStart c || ('0' ≤ c && c ≤ '9')

/-- Whether a character list matches `[_A-Za-z][_a-zA-Z0-9]*` exactly. -/
def identCore : List Char → Bool
  | [] => false
  | c :: rest => isIdentStart c && rest.all isIdentRest

/-- `__is_valid_param`: Python's `re.match("^[_A-Za-z][_a-zA-Z0-9]*$", s)`,
whose `$` also accepts one trailing newline. -/
def is_valid_param (s : String) : Bool :=
  identCore s.data ||
    (s.data.getLast? == some (Char.ofNat 10) && identCore s.data.dropLast)

/-- `__check_valid_params`: collect every invalid name of the batch. -/
def check_valid_params (names : List String) : Except Err Unit :=
  let bad := names.filter (fun p => ¬ is_valid_param p)
  if bad.length > 0 then Except.error (Err.invalidParams bad) else Except.ok ()

mutual

/-- `__check_function(param, f, forbidden)`: reject the definition when the
recursive expansion of the function's argument names (taken verbatim, the
exact self name removed) through currently installed function-valued
parameters meets a forbidden name.  Pure in the state; fuel only models the
unbounded recursion (each step consumes one unit, so any sufficiently
large amount gives the Python behaviour). -/
def check_function (fuel : Nat) (P : Params) (param : String) (f : VFunc)
    (forbidden : Option (List String)) : Except Err VFunc :=
  match fuel with
  | 0 => Except.error Err.fuelChk
  | fuel+1 =>
    let args := f.args.filter (fun a => ¬ (a = param))
    match forbidden with
    | none =>
      match check_function_args fuel P args [param] with
      | Except.error e => Except.error e
      | Except.ok _ => Except.ok f
    | some fb =>
      match fb.find? (fun arg => args.contains arg) with
      | some arg => Except.error (Err.recursion arg)
      | none =>
        match check_function_args fuel P args (fb ++ [param]) with
        | Except.error e => Except.error e
        | Except.ok _ => Except.ok f

/-- The argument loop of `__check_function`: recurse into each argument
that is itself a function-valued parameter. -/
def check_function_args (fuel : Nat) (P : Params) (pending : List String)
    (forbidden : List String) : Except Err Unit :=
  match fuel with
  | 0 => Except.error Err.fuelChk
  | fuel+1 =>
    match pending with
    | [] => Except.ok ()
    | arg :: rest =>
      match alookup P.parameters arg with
      | some (.fS g) =>
        match check_function fuel P arg g (some forbidden) with
        | Except.error e => Except.error e
        | Except.ok _ => check_function_args fuel P rest forbidden
      | _ => check_function_args fuel P rest forbidden

end

/-- The result of `__get_params`: one value for a single query, a dict for
several. -/
inductive GPRes where
  | single (v : PyVal)
  | dict (d : AList PyVal)

/-- The positional-arguments expression of `__eval`'s function call:
`params[get_pam_name(x)]` for each declared argument, stripped back to
first-order values for the body. -/
def eval_positional (params : AList PyVal) (args : List String) :
    Except Err (List Val) :=
  match args with
  | [] => Except.ok []
  | x :: rest =>
    match alookup params (get_pam_name x) with
    | none => Except.error (Err.notFound (get_pam_name x))
    | some v =>
      match PyVal.toVal v with
      | none => Except.error Err.typeError
      | some vv =>
        match eval_positional params rest with
        | Except.error e => Except.error e
        | Except.ok vs => Except.ok (vv :: vs)

/-- The inverse-result loop of `__eval_function`: `enumerate` over the full
declared argument list, mapping the i-th returned element to the i-th
declared (unstripped) argument name, tagged with the unit of the stripped
name, skipping positions whose stripped name is the target. -/
def ef_inverse (rs : List Val) (args : List String) (i : Nat) (param : String)
    (acc : AList PyVal) : M (AList PyVal) :=
  match args with
  | [] => mpure acc
  | arg :: rest =>
    let pam := if headUnderscore arg then arg.drop 1 else arg
    if ¬ (pam = param) then
      match rs.get? i with
      | none => mthrow Err.typeError
      | some rv =>
        mbind (get_quantity rv.toPy (some pam) none false) (fun q =>
          ef_inverse rs rest (i + 1) param (aset acc arg q))
    else ef_inverse rs rest (i + 1) param acc

mutual

/-- `__get_param(arg, **kwargs)`.  Fuel decreases on every step of the
mutual evaluator, so any sufficiently large amount gives the Python
behaviour. -/
def get_param (fuel : Nat) (arg : OArg) (kwargs : AList PyVal) : M PyVal :=
  match fuel with
  | 0 => mthrow Err.fuelEval
  | fuel+1 =>
    match arg with
    | .funcA f => eval fuel (.funcA f) kwargs
    | .nameA s =>
      mbind mgetState (fun P =>
        if ¬ acontains kwargs (get_pam_name s) && ¬ acontains P.parameters (get_pam_name s)
        then eval fuel (.nameA s) kwargs
        else
          let stripped := headUnderscore s
          let arg1 := if stripped then s.drop 1 else s
          let scaled := if stripped then !P.default_scaled else P.default_scaled
          match alookup kwargs arg1 with
          | some v => get_quantity v (some arg1) none scaled
          | none =>
            match alookup P.parameters arg1 with
            | some (.fS _) =>
              mbind (eval_function fuel arg1 kwargs) (fun vals =>
                match alookup vals arg1 with
                | some v => get_quantity v (some arg1) none scaled
                | none => mthrow (Err.notFound arg1))
            | some (.qS q) => get_quantity (.quantP q) (some arg1) none scaled
            | none => mthrow (Err.notFound arg1))

/-- `__get_params(*args, **kwargs)`: a single value for one argument, else
a dict keyed by the stripped names. -/
def get_params (fuel : Nat) (args : List OArg) (kwargs : AList PyVal) : M GPRes :=
  match fuel with
  | 0 => mthrow Err.fuelEval
  | fuel+1 =>
    match args with
    | [a] => mbind (get_param fuel a kwargs) (fun v => mpure (GPRes.single v))
    | _ => mbind (get_params_list fuel args kwargs []) (fun d => mpure (GPRes.dict d))

/-- The dict-building loop of `__get_params`.  A function object as one of
several query arguments would key the Python dict by the object itself;
the model rejects that (unused by the engine). -/
def get_params_list (fuel : Nat) (args : List OArg) (kwargs : AList PyVal)
    (acc : AList PyVal) : M (AList PyVal) :=
  match fuel with
  | 0 => mthrow Err.fuelEval
  | fuel+1 =>
    match args with
    | [] => mpure acc
    | .nameA s :: rest =>
      mbind (get_param fuel (.nameA s) kwargs) (fun v =>
        get_params_list fuel rest kwargs (aset acc (get_pam_name s) v))
    | .funcA _ :: _ => mthrow Err.typeError

/-- `__eval(arg, **kwargs)`: call a function after resolving its declared
arguments, or hand a string expression to the symbolic collaborator. -/
def eval (fuel : Nat) (arg : OArg) (kwargs : AList PyVal) : M PyVal :=
  match fuel with
  | 0 => mthrow Err.fuelEval
  | fuel+1 =>
    match arg with
    | .funcA f =>
      mbind (get_params fuel (f.args.map OArg.nameA) kwargs) (fun res =>
        let params : AList PyVal :=
          match res with
          | .dict d => d
          | .single v =>
            match f.args with
            | a0 :: _ => [(get_pam_name a0, v)]
            | [] => []
        match eval_positional params f.args with
        | Except.error e => mthrow e
        | Except.ok vs => mbind (mliftE (f.body vs)) (fun r => mpure (Val.toPy r)))
    | .nameA s =>
      mbind mgetState (fun P =>
        mbind (mliftE (P.sym.evalExpr s kwargs)) (fun r => mpure (Val.toPy r)))

/-- `__eval_function(param, **kwargs)`. -/
def eval_function (fuel : Nat) (param : String) (kwargs : AList PyVal) :
    M (AList PyVal) :=
  match fuel with
  | 0 => mthrow Err.fuelEval
  | fuel+1 =>
    mbind mgetState (fun P =>
      match alookup P.parameters param with
      | some (.fS f) =>
        if acontains kwargs param && ¬ f.args.contains param
            && ¬ f.args.contains ("_" ++ param)
        then mthrow (Err.nonInvertible param)
        else
          mbind (ef_collect fuel f.args param kwargs) (fun pargs =>
            match PyVal.toValList pargs with
            | none => mthrow Err.typeError
            | some vs =>
              mbind (mliftE (f.body vs)) (fun r =>
                let rs := match r with | .tupV xs => xs | v => [v]
                if ¬ acontains kwargs param then
                  match rs.head? with
                  | none => mthrow Err.typeError
                  | some r0 =>
                    mbind (get_quantity r0.toPy (some param) none false) (fun q =>
                      mpure [(param, q)])
                else ef_inverse rs f.args 0 param []))
      | _ => mthrow Err.typeError)

/-- The argument-collection loop of `__eval_function`: skip the target
argument when it carries no override, resolve every other one. -/
def ef_collect (fuel : Nat) (args : List String) (param : String)
    (kwargs : AList PyVal) : M (List PyVal) :=
  match fuel with
  | 0 => mthrow Err.fuelEval
  | fuel+1 =>
    match args with
    | [] => mpure []
    | arg :: rest =>
      if arg = param && ¬ acontains kwargs arg then ef_collect fuel rest param kwargs
      else
        mbind (get_param fuel (.nameA arg) kwargs) (fun v =>
          mbind (ef_collect fuel rest param kwargs) (fun vs => mpure (v :: vs)))

end

/-- `__get_function`: a function object passes through, a string is
compiled by the symbolic collaborator. -/
def get_function (sym : SymEnv) : PyVal → Except Err VFunc
  | .funcP f => Except.ok f
  | .strP s => sym.toFunction s
  | _ => Except.error Err.typeError

/-- The reconcile loop of `__process_override` (step 3 of the resolver):
raise `overspecified` at the first derived key whose value contradicts the
current override set or an earlier derivation of this pass. -/
def po_check (vals kwargs new : AList PyVal) : Except Err Unit :=
  match vals with
  | [] => Except.ok ()
  | (key, v) :: rest =>
    let inKw := match alookup kwargs key with
      | some kv => !(pyEqb v kv)
      | none => false
    let inNew := match alookup new key with
      | some nv => !(pyEqb v nv)
      | none => false
    if inKw || inNew then Except.error (Err.overspecified key)
    else po_check rest kwargs new

/-- The first loop of `__process_override` (normalisation): a restricted
override whose value is a string or function is evaluated against the other
current overrides and replaced in place.  `items` is the
`list(kwargs.items())` snapshot. -/
def po_phase1 (efuel : Nat) (items : List (String × PyVal)) (restrict : List String)
    (kwargs : AList PyVal) : M (AList PyVal) :=
  match items with
  | [] => mpure kwargs
  | (pam, val) :: rest =>
    if restrict.contains pam then
      mbind mgetState (fun P =>
        mbind (mliftE (match val with
          | .strP s => (P.sym.toFunction s).map PyVal.funcP
          | v => Except.ok v)) (fun val1 =>
          match val1 with
          | .funcP f =>
            mbind (get_param efuel (.funcA f) (adel kwargs pam)) (fun v =>
              po_phase1 efuel rest restrict (aset kwargs pam v))
          | _ => po_phase1 efuel rest restrict kwargs))
    else po_phase1 efuel rest restrict kwargs

/-- The second loop of `__process_override` (expansion): every restricted
override whose stored definition is a function is inverse-evaluated; the
derived values are reconciled and accumulated into `new`. -/
def po_phase2 (efuel : Nat) (items : List (String × PyVal)) (restrict : List String)
    (kwargs new : AList PyVal) : M (AList PyVal) :=
  match items with
  | [] => mpure new
  | (pam, _) :: rest =>
    mbind mgetState (fun P =>
      if restrict.contains pam &&
          (match alookup P.parameters pam with
            | some (.fS _) => true
            | _ => false) then
        mbind (eval_function efuel pam kwargs) (fun vals =>
          mbind (mliftE (po_check vals kwargs new)) (fun _ =>
            po_phase2 efuel rest restrict kwargs (aupdate new vals)))
      else po_phase2 efuel rest restrict kwargs new)

/-- `__process_override(kwargs, restrict)`: the fixed-point propagation of
the dependency resolver.  Returns the final override set (Python mutates
the caller's dict in place); `pfuel` bounds the pass recursion. -/
def process_override (pfuel efuel : Nat) (kwargs : AList PyVal)
    (restrict : Option (List String)) : M (AList PyVal) :=
  match pfuel with
  | 0 => mthrow Err.fuelPass
  | pfuel+1 =>
    let r := restrict.getD (akeys kwargs)
    if r.length = 0 then mpure kwargs
    else
      mbind (po_phase1 efuel kwargs r kwargs) (fun kw1 =>
        mbind (po_phase2 efuel kw1 r kw1 []) (fun new =>
          process_override pfuel efuel (aupdate kw1 new) (some (akeys new))))

/-- `__spec`: set unit specifications; a stored quantity has its units
replaced in place, a stored function object merely gains an attribute
(a no-op in the model). -/
def spec (kwargs : List (String × URef)) : M Unit :=
  match kwargs with
  | [] => mpure ()
  | (arg, uref) :: rest =>
    mbind (mliftE (get_unit uref)) (fun u =>
      mbind (mmodifyState (fun P =>
        { P with
          parameters_spec := aset P.parameters_spec arg u
          parameters :=
            match alookup P.parameters arg with
            | some (.qS q) => aset P.parameters arg (.qS ⟨q.value, u⟩)
            | _ => P.parameters })) (fun _ => spec rest))

/-- Re-raise a `ValueError` from one `__set` item as
`Could not add parameter %s. %s`. -/
def wrap_value_error {α : Type} (param : String) (m : M α) : M α := fun P =>
  match m P with
  | (Except.error e, P1) =>
    (if e.isValueError then Except.error (Err.couldNotAdd param e) else Except.error e, P1)
  | ok => ok

/-- The unit argument of `__set`'s `(function, unit)` form. -/
def set_unit_ref : PyVal → URef
  | .strP s => URef.strU s
  | _ => URef.strU "unsupported"

/-- The third branch of `__set`: store the coerced quantity and record its
units as the parameter's spec. -/
def set_plain (param : String) (val : PyVal) : M Unit :=
  mbind (get_quantity val (some param) none false) (fun q =>
    match q with
    | .quantP qq =>
      mbind (mmodifyState (fun Q => { Q with parameters := aset Q.parameters param (.qS qq) }))
        (fun _ => spec [(param, URef.unitU qq.units)])
    | _ => mthrow Err.typeError)

/-- One assignment of `__set`'s loop body (before the `except ValueError`
wrapper). -/
def set_one (cfuel : Nat) (param : String) (val : PyVal) : M Unit :=
  match val with
  | .funcP _ | .strP _ =>
    mbind mgetState (fun P =>
      mbind (mliftE (get_function P.sym val)) (fun g =>
        mbind (mliftE (check_function cfuel P param g none)) (fun g2 =>
          mbind (mmodifyState (fun Q => { Q with parameters := aset Q.parameters param (.fS g2) }))
            (fun _ =>
              mbind (mliftE (get_unit (URef.strU ""))) (fun u =>
                spec [(param, URef.unitU u)])))))
  | .tupP [] => mthrow Err.typeError
  | .tupP (x :: rest) =>
    match x with
    | .funcP _ | .strP _ =>
      mbind mgetState (fun P =>
        mbind (mliftE (get_function P.sym x)) (fun g =>
          mbind (mliftE (check_function cfuel P param g none)) (fun g2 =>
            mbind (mmodifyState (fun Q => { Q with parameters := aset Q.parameters param (.fS g2) }))
              (fun _ =>
                match rest.head? with
                | none => mthrow Err.typeError
                | some u1 =>
                  mbind (mliftE (get_unit (set_unit_ref u1))) (fun u =>
                    spec [(param, URef.unitU u)])))))
    | _ => set_plain param val
  | _ => set_plain param val

/-- The assignment loop of `__set`. -/
def set_items (cfuel : Nat) (items : List (String × PyVal)) : M Unit :=
  match items with
  | [] => mpure ()
  | (param, val) :: rest =>
    mbind (wrap_value_error param (set_one cfuel param val))
      (fun _ => set_items cfuel rest)

/-- `__set(**kwargs)`: validate every name, then apply the assignments one
by one. -/
def set (cfuel : Nat) (kwargs : List (String × PyVal)) : M Unit :=
  mbind (mliftE (check_valid_params (kwargs.map Prod.fst)))
    (fun _ => set_items cfuel kwargs)

/-- The assignment loop of `__update`: skip parameters whose stored value
is a function. -/
def update_items (cfuel : Nat) (items : List (String × PyVal)) : M Unit :=
  match items with
  | [] => mpure ()
  | (param, val) :: rest =>
    mbind mgetState (fun P =>
      mbind (match alookup P.parameters param with
        | some (.fS _) => mpure ()
        | _ => set cfuel [(param, val)])
        (fun _ => update_items cfuel rest))

/-- `__update(**kwargs)` (the durable multi-parameter update): validate
names, propagate the overrides, then apply each non-function assignment. -/
def update (pfuel efuel cfuel : Nat) (kwargs : List (String × PyVal)) : M Unit :=
  mbind (mliftE (check_valid_params (kwargs.map Prod.fst))) (fun _ =>
    mbind (process_override pfuel efuel kwargs none) (fun kw1 =>
      update_items cfuel kw1))

/-- `__remove(param)`: drop the stored value and the unit spec; total and
silent. -/
def remove (P : Params) (param : String) : Params :=
  { P with
    parameters := adel P.parameters param
    parameters_spec := adel P.parameters_spec param }

/-- `__get(*args, **kwargs)` (the query path of `__call__`): propagate the
temporary overrides, then resolve the requested names. -/
def get (pfuel efuel : Nat) (args : List OArg) (kwargs : AList PyVal) : M GPRes :=
  mbind (process_override pfuel efuel kwargs none) (fun kw1 =>
    get_params efuel args kw1)

/-- A symbolic collaborator with nothing installed: every expression
fails, as sympy fails on unparsable input. -/
def noSym : SymEnv :=
  ⟨fun s => Except.error (Err.symErr s), fun s _ => Except.error (Err.symErr s)⟩

/-- The state `Parameters.__init__` builds with the default arguments
(empty tables, `default_scaled = True`). -/
def defaultParams : Params := ⟨[], [], [], [], [], true, noSym⟩

/-- The result component of running an engine operation. -/
def resultOf {α : Type} (m : M α) (P : Params) : Except Err α := (m P).1

/-- The state component of running an engine operation. -/
def stateOf {α : Type} (m : M α) (P : Params) : Params := (m P).2

/-! ### Association-list lemmas -/

theorem alookup_aset_self {α : Type} (l : AList α) (k : String) (v : α) :
    alookup (aset l k v) k = some v := by
  induction l with
  | nil => simp [aset, alookup]
  | cons p rest ih =>
    obtain ⟨k1, v1⟩ := p
    by_cases h : k1 = k
    · simp [aset, alookup, h]
    · simp [aset, alookup, h, ih]

theorem alookup_aset_other {α : Type} (l : AList α) (k k2 : String) (v : α)
    (h : ¬ (k = k2)) : alookup (aset l k v) k2 = alookup l k2 := by
  induction l with
  | nil => simp [aset, alookup, h]
  | cons p rest ih =>
    obtain ⟨k1, v1⟩ := p
    by_cases h1 : k1 = k
    · subst h1
      simp [aset, alookup, h]
    · simp [aset, alookup, h1, ih]

theorem aset_aset {α : Type} (l : AList α) (k : String) (v w : α) :
    aset (aset l k v) k w = aset l k w := by
  induction l with
  | nil => simp [aset]
  | cons p rest ih =>
    obtain ⟨k1, v1⟩ := p
    by_cases h : k1 = k
    · simp [aset, h]
    · simp [aset, h, ih]

theorem akeys_aset {α : Type} (l : AList α) (k : String) (v : α) :
    akeys (aset l k v) = if acontains l k then akeys l else akeys l ++ [k] := by
  induction l with
  | nil => simp [aset, akeys, acontains, alookup]
  | cons p rest ih =>
    obtain ⟨k1, v1⟩ := p
    by_cases h : k1 = k
    · simp [aset, akeys, acontains, alookup, h]
    · simp [aset, akeys, acontains, alookup, h] at ih ⊢
      rw [ih]
      by_cases h2 : (alookup rest k).isSome <;> simp [h2]

theorem adel_adel {α : Type} (l : AList α) (k : String) :
    adel (adel l k) k = adel l k := by
  simp [adel, List.filter_filter]

theorem alookup_adel_self {α : Type} (l : AList α) (k : String) :
    alookup (adel l k) k = none := by
  induction l with
  | nil => simp [adel, alookup]
  | cons p rest ih =>
    obtain ⟨k1, v1⟩ := p
    by_cases h : k1 = k
    · simpa [adel, alookup, h] using ih
    · simpa [adel, alookup, h] using ih

theorem adel_of_not_mem {α : Type} (l : AList α) (k : String)
    (h : alookup l k = none) : adel l k = l := by
  induction l with
  | nil => simp [adel]
  | cons p rest ih =>
    obtain ⟨k1, v1⟩ := p
    rw [alookup] at h
    by_cases h1 : k1 = k
    · simp [h1] at h
    · rw [if_neg h1] at h
      unfold adel
      rw [List.filter_cons_of_pos (by simpa using h1)]
      have h2 := ih h
      unfold adel at h2
      rw [h2]

/-! ### The engine mutates nothing but the scaling cache while reading -/

/-- Two states that agree on everything except the scaling cache: what any
read-only operation (evaluation, propagation) may do to the state. -/
def sameButCache (P Q : Params) : Prop :=
  Q.parameters_spec = P.parameters_spec ∧ Q.parameters = P.parameters ∧
    Q.scalings = P.scalings ∧ Q.unit_scalings = P.unit_scalings ∧
    Q.default_scaled = P.default_scaled ∧ Q.sym = P.sym

theorem sameButCache_refl (P : Params) : sameButCache P P :=
  ⟨rfl, rfl, rfl, rfl, rfl, rfl⟩

theorem sameButCache_trans {P Q R : Params} (h1 : sameButCache P Q)
    (h2 : sameButCache Q R) : sameButCache P R := by
  obtain ⟨u1, u2, u3, u4, u5, u6⟩ := h1
  obtain ⟨w1, w2, w3, w4, w5, w6⟩ := h2
  refine ⟨w1.trans u1, w2.trans u2, w3.trans u3, w4.trans u4, w5.trans u5, w6.trans u6⟩

/-- Frame composition along `mbind`. -/
theorem mbind_frame {α β : Type} {m : M α} {k : α → M β}
    (hm : ∀ P, sameButCache P (m P).2) (hk : ∀ a P, sameButCache P (k a P).2) :
    ∀ P, sameButCache P ((mbind m k) P).2 := by
  intro P
  rw [mbind_applied]
  rcases h : m P with ⟨r, P1⟩
  have h1 : sameButCache P P1 := by have := hm P; rw [h] at this; exact this
  cases r with
  | ok a => exact sameButCache_trans h1 (hk a P1)
  | error e => exact h1

theorem mpure_frame {α : Type} (a : α) : ∀ P, sameButCache P ((mpure a) P).2 :=
  fun P => sameButCache_refl P

theorem mthrow_frame {α : Type} (e : Err) : ∀ P, sameButCache P ((mthrow (α := α) e) P).2 :=
  fun P => sameButCache_refl P

theorem mliftE_frame {α : Type} (x : Except Err α) :
    ∀ P, sameButCache P ((mliftE x) P).2 :=
  fun P => sameButCache_refl P

theorem unit_scaling_frame (u : Units) : ∀ P, sameButCache P ((unit_scaling u) P).2 := by
  intro P
  unfold unit_scaling
  rcases cache_lookup P.scaling_cache u with _ | s
  · rcases unit_scaling_calc P u with e | s
    · exact sameButCache_refl P
    · exact ⟨rfl, rfl, rfl, rfl, rfl, rfl⟩
  · exact sameButCache_refl P

theorem get_quantity_tail_frame (q : Quantity) (scaled : Bool) :
    ∀ P, sameButCache P ((get_quantity_tail q scaled) P).2 := by
  intro P
  unfold get_quantity_tail
  by_cases h : scaled
  · simp only [h, if_true]
    exact mbind_frame (unit_scaling_frame q.units) (fun s => mpure_frame _) P
  · simp only [h, if_false]
    exact mpure_frame _ P

theorem get_quantity_frame (value : PyVal) (param : Option String)
    (unit : Option URef) (scaled : Bool) :
    ∀ P, sameButCache P ((get_quantity value param unit scaled) P).2 := by
  intro P
  unfold get_quantity
  rcases value with x | q | s | f | xs
  · refine mbind_frame (fun P => sameButCache_refl P) (fun P1 => ?_) P
    exact mbind_frame (mliftE_frame _)
      (fun u => mbind_frame (unit_scaling_frame u) (fun s => get_quantity_tail_frame _ _))
  · exact get_quantity_tail_frame q scaled P
  · exact sameButCache_refl P
  · by_cases h : scaled <;> simp only [h, if_true, if_false] <;> exact sameButCache_refl P
  · rcases xs with _ | ⟨a, _ | ⟨b, _ | _⟩⟩ <;>
      first
        | exact sameButCache_refl P
        | exact mbind_frame (mliftE_frame _) (fun q => get_quantity_tail_frame _ _) P

theorem ef_inverse_frame (rs : List Val) (args : List String) (i : Nat)
    (param : String) (acc : AList PyVal) :
    ∀ P, sameButCache P ((ef_inverse rs args i param acc) P).2 := by
  induction args generalizing i acc with
  | nil => intro P; exact sameButCache_refl P
  | cons arg rest ih =>
    intro P
    unfold ef_inverse
    by_cases h : ¬ ((if headUnderscore arg then arg.drop 1 else arg) = param)
    · simp only [h, if_true]
      rcases rs.get? i with _ | rv
      · exact sameButCache_refl P
      · exact mbind_frame (get_quantity_frame _ _ _ _) (fun q => ih _ _) P
    · simp only [h, if_false]
      exact ih _ _ P

/-- The whole recursive evaluator only ever mutates the scaling cache:
`__get_param`, `__get_params`, `__eval`, `__eval_function` and their loops
leave the parameter store, the unit specs and the scaling tables as they
were. -/
theorem eval_stack_frame : ∀ fuel : Nat,
    (∀ arg kwargs P, sameButCache P ((get_param fuel arg kwargs) P).2) ∧
    (∀ args kwargs P, sameButCache P ((get_params fuel args kwargs) P).2) ∧
    (∀ args kwargs acc P, sameButCache P ((get_params_list fuel args kwargs acc) P).2) ∧
    (∀ arg kwargs P, sameButCache P ((eval fuel arg kwargs) P).2) ∧
    (∀ param kwargs P, sameButCache P ((eval_function fuel param kwargs) P).2) ∧
    (∀ args param kwargs P, sameButCache P ((ef_collect fuel args param kwargs) P).2) := by
  intro fuel
  induction fuel with
  | zero =>
    refine ⟨?_, ?_, ?_, ?_, ?_, ?_⟩ <;> intros <;> exact sameButCache_refl _
  | succ fuel ih =>
    obtain ⟨ihgp, ihgps, ihgpl, ihev, ihef, ihec⟩ := ih
    refine ⟨?_, ?_, ?_, ?_, ?_, ?_⟩
    · intro arg kwargs P
      rcases arg with s | f
      · show sameButCache P ((mbind mgetState _) P).2
        refine mbind_frame (fun P => sameButCache_refl P) (fun P1 => ?_) P
        intro P2
        split
        · exact ihev _ _ P2
        · dsimp only
          generalize (if headUnderscore s = true then s.drop 1 else s) = arg1
          generalize (if headUnderscore s = true then !P1.default_scaled else P1.default_scaled) = scaled
          rcases hkv : alookup kwargs arg1 with _ | v
          · simp only [hkv]
            rcases hp : alookup P1.parameters arg1 with _ | sv
            · simp only [hp]
              exact sameButCache_refl P2
            · rcases sv with q | g
              · simp only [hp]
                exact get_quantity_frame _ _ _ _ P2
              · simp only [hp]
                refine mbind_frame (ihef _ _) (fun vals => ?_) P2
                intro P3
                rcases hv : alookup vals arg1 with _ | v2
                · simp only [hv]
                  exact sameButCache_refl P3
                · simp only [hv]
                  exact get_quantity_frame _ _ _ _ P3
          · simp only [hkv]
            exact get_quantity_frame _ _ _ _ P2
      · exact ihev _ _ P
    · intro args kwargs P
      rcases args with _ | ⟨a, _ | ⟨b, rest⟩⟩
      · exact mbind_frame (ihgpl _ _ _) (fun d => mpure_frame _) P
      · exact mbind_frame (ihgp _ _) (fun v => mpure_frame _) P
      · exact mbind_frame (ihgpl _ _ _) (fun d => mpure_frame _) P
    · intro args kwargs acc P
      rcases args with _ | ⟨a, rest⟩
      · exact sameButCache_refl P
      · rcases a with s | f
        · exact mbind_frame (ihgp _ _) (fun v => ihgpl _ _ _) P
        · exact sameButCache_refl P
    · intro arg kwargs P
      rcases arg with s | f
      · show sameButCache P ((mbind mgetState _) P).2
        refine mbind_frame (fun P => sameButCache_refl P) (fun P1 => ?_) P
        exact mbind_frame (mliftE_frame _) (fun r => mpure_frame _)
      · refine mbind_frame (ihgps _ _) (fun res => ?_) P
        intro P1
        dsimp only
        repeat' split
        all_goals
          generalize eval_positional _ f.args = epr
        all_goals
          rcases epr with e | vs <;> dsimp only <;>
            first
              | exact sameButCache_refl P1
              | exact mbind_frame (mliftE_frame _) (fun r => mpure_frame _) P1
    · intro param kwargs P
      show sameButCache P ((mbind mgetState _) P).2
      refine mbind_frame (fun P => sameButCache_refl P) (fun P1 => ?_) P
      intro P2
      rcases hp : alookup P1.parameters param with _ | sv
      · simp only [hp]
        exact sameButCache_refl P2
      · rcases sv with q | f
        · simp only [hp]
          exact sameButCache_refl P2
        · simp only [hp]
          split
          · exact sameButCache_refl P2
          · refine mbind_frame (ihec _ _ _) (fun pargs => ?_) P2
            intro P3
            rcases htv : PyVal.toValList pargs with _ | vs
            · simp only [htv]
              exact sameButCache_refl P3
            · simp only [htv]
              refine mbind_frame (mliftE_frame _) (fun r => ?_) P3
              intro P4
              dsimp only
              by_cases hacc : acontains kwargs param = true
              · rw [if_neg (fun hc => hc hacc)]
                exact ef_inverse_frame _ _ _ _ _ P4
              · rw [if_pos hacc]
                rcases hh : (match r with | Val.tupV xs => xs | v => [v]).head? with _ | r0
                · simp only [hh]
                  exact sameButCache_refl P4
                · simp only [hh]
                  exact mbind_frame (get_quantity_frame _ _ _ _) (fun q => mpure_frame _) P4
    · intro args param kwargs P
      rcases args with _ | ⟨arg, rest⟩
      · exact sameButCache_refl P
      · unfold ef_collect
        dsimp only
        split
        · exact ihec _ _ _ P
        · exact mbind_frame (ihgp _ _)
            (fun v => mbind_frame (ihec _ _ _) (fun vs => mpure_frame _)) P

theorem po_phase1_frame (efuel : Nat) (items : List (String × PyVal))
    (restrict : List String) (kwargs : AList PyVal) :
    ∀ P, sameButCache P ((po_phase1 efuel items restrict kwargs) P).2 := by
  induction items generalizing kwargs with
  | nil => intro P; exact sameButCache_refl P
  | cons p rest ih =>
    obtain ⟨pam, val⟩ := p
    intro P
    unfold po_phase1
    split
    · refine mbind_frame (fun P => sameButCache_refl P) (fun P1 => ?_) P
      intro P2
      refine mbind_frame (mliftE_frame _) (fun val1 => ?_) P2
      intro P3
      split
      all_goals
        first
          | exact mbind_frame ((eval_stack_frame efuel).1 _ _) (fun v => ih _) P3
          | exact ih _ P3
    · exact ih _ P

theorem po_phase2_frame (efuel : Nat) (items : List (String × PyVal))
    (restrict : List String) (kwargs new : AList PyVal) :
    ∀ P, sameButCache P ((po_phase2 efuel items restrict kwargs new) P).2 := by
  induction items generalizing new with
  | nil => intro P; exact sameButCache_refl P
  | cons p rest ih =>
    obtain ⟨pam, val⟩ := p
    intro P
    unfold po_phase2
    refine mbind_frame (fun P => sameButCache_refl P) (fun P1 => ?_) P
    intro P2
    split
    · refine mbind_frame ((eval_stack_frame efuel).2.2.2.2.1 _ _) (fun vals => ?_) P2
      intro P3
      exact mbind_frame (mliftE_frame _) (fun _ => ih _) P3
    · exact ih _ P2

/-- Override propagation only ever mutates the scaling cache: whether it
returns or raises, the parameter store, the unit specs and the scaling
tables are untouched. -/
theorem process_override_frame (pfuel efuel : Nat) (kwargs : AList PyVal)
    (restrict : Option (List String)) :
    ∀ P, sameButCache P ((process_override pfuel efuel kwargs restrict) P).2 := by
  induction pfuel generalizing kwargs restrict with
  | zero => intro P; exact sameButCache_refl P
  | succ pf ih =>
    intro P
    unfold process_override
    dsimp only
    split
    · exact sameButCache_refl P
    · exact mbind_frame (po_phase1_frame _ _ _ _)
        (fun kw1 => mbind_frame (po_phase2_frame _ _ _ _ _) (fun new => ih _ _)) P

/-! ### Destructuring successful and failing runs -/

theorem mbind_ok_iff {α β : Type} {m : M α} {k : α → M β} {P P2 : Params}
    {b : β} :
    (mbind m k) P = (Except.ok b, P2) ↔
      ∃ a P1, m P = (Except.ok a, P1) ∧ k a P1 = (Except.ok b, P2) := by
  rw [mbind_applied]
  rcases h : m P with ⟨r, P1⟩
  cases r with
  | ok a =>
    constructor
    · intro h2
      exact ⟨a, P1, rfl, h2⟩
    · rintro ⟨a2, P1b, ha, hk⟩
      rw [Prod.mk.injEq] at ha
      obtain ⟨h1, h2⟩ := ha
      injection h1 with h1
      subst h1
      subst h2
      exact hk
  | error e =>
    constructor
    · intro h2
      exact absurd (congrArg Prod.fst h2) (by simp)
    · rintro ⟨a2, P1b, ha, hk⟩
      exact absurd (congrArg Prod.fst ha) (by simp)

theorem mbind_run_ok {α β : Type} {m : M α} {k : α → M β} {P P1 : Params}
    {a : α} (h : m P = (Except.ok a, P1)) : (mbind m k) P = k a P1 := by
  rw [mbind_applied, h]

theorem mbind_run_err {α β : Type} {m : M α} {k : α → M β} {P P1 : Params}
    {e : Err} (h : m P = (Except.error e, P1)) :
    (mbind m k) P = (Except.error e, P1) := by
  rw [mbind_applied, h]

/-! ### C10: removal is total, silent and idempotent -/

/-- C10 (confirmed): for every string name, `__remove` never fails (it is a
total function of the state in this model, as in the source, which only
performs guarded `del`s); it deletes both the stored value and the unit
spec; removing an absent name leaves the state exactly as it was; and
removing the same name twice equals removing it once. -/
theorem remove_total_silent_idempotent (P : Params) (name : String) :
    remove (remove P name) name = remove P name ∧
    alookup (remove P name).parameters name = none ∧
    alookup (remove P name).parameters_spec name = none ∧
    (alookup P.parameters name = none → alookup P.parameters_spec name = none →
      remove P name = P) := by
  obtain ⟨ps, pr, sc, us, cache, ds, sym⟩ := P
  refine ⟨?_, ?_, ?_, ?_⟩
  · simp [remove, adel_adel]
  · simp [remove, alookup_adel_self]
  · simp [remove, alookup_adel_self]
  · intro h1 h2
    dsimp only at h1 h2
    simp only [remove]
    rw [adel_of_not_mem _ _ h1, adel_of_not_mem _ _ h2]

/-- Witness for C10's conditional conjunct at a concrete state. -/
theorem remove_total_silent_idempotent_witness :
    remove defaultParams "x" = defaultParams :=
  (remove_total_silent_idempotent defaultParams "x").2.2.2 rfl rfl

/-! ### C9: a bare function assignment resets the unit spec -/

/-- C9 (confirmed): durably assigning a bare function — or a string
expression the symbolic collaborator compiles to one — overwrites whatever
unit spec the name had with the dimensionless (`''`/"constant") unit — a
unit declared earlier is silently lost — while the two-element
`(function, unit)` form installs the caller's unit spec. The hypotheses
are the success conditions of `__set`: a valid name, a cycle check that
passes, and (for the string form) a successful compilation. -/
theorem set_function_overwrites_unit_spec (P : Params) (cf : Nat) (p : String)
    (f g2 : VFunc) (us s : String) (u : Units)
    (hv : is_valid_param p = true)
    (hchk : check_function cf P p f none = Except.ok g2) :
    (set cf [(p, .funcP f)] P =
      (Except.ok (), { P with
        parameters := aset P.parameters p (.fS g2)
        parameters_spec := aset P.parameters_spec p constantUnit }) ∧
      alookup (stateOf (set cf [(p, .funcP f)]) P).parameters_spec p = some constantUnit) ∧
    (P.sym.toFunction s = Except.ok f →
      set cf [(p, .strP s)] P =
        (Except.ok (), { P with
          parameters := aset P.parameters p (.fS g2)
          parameters_spec := aset P.parameters_spec p constantUnit }) ∧
      alookup (stateOf (set cf [(p, .strP s)]) P).parameters_spec p = some constantUnit) ∧
    (SIget us = some u →
      set cf [(p, .tupP [.funcP f, .strP us])] P =
        (Except.ok (), { P with
          parameters := aset P.parameters p (.fS g2)
          parameters_spec := aset P.parameters_spec p u }) ∧
      alookup (stateOf (set cf [(p, .tupP [.funcP f, .strP us])]) P).parameters_spec p = some u) := by
  have hcv : check_valid_params ([(p, PyVal.funcP f)].map Prod.fst) = Except.ok () := by
    simp [check_valid_params, hv]
  have hcv2 :
      check_valid_params ([(p, PyVal.tupP [.funcP f, .strP us])].map Prod.fst) =
        Except.ok () := by
    simp [check_valid_params, hv]
  have hcv3 : check_valid_params ([(p, PyVal.strP s)].map Prod.fst) = Except.ok () := by
    simp [check_valid_params, hv]
  refine ⟨?_, ?_, ?_⟩
  · have key : set cf [(p, .funcP f)] P =
        (Except.ok (), { P with
          parameters := aset P.parameters p (.fS g2)
          parameters_spec := aset P.parameters_spec p constantUnit }) := by
      rw [set, mbind_run_ok (by rw [mliftE_applied, hcv])]
      rw [set_items]
      have hso : set_one cf p (.funcP f) P =
          (Except.ok (), { P with
            parameters := aset P.parameters p (.fS g2)
            parameters_spec := aset P.parameters_spec p constantUnit }) := by
        rw [set_one]
        rw [mbind_run_ok (by rw [mgetState_applied])]
        rw [mbind_run_ok (by rw [mliftE_applied]; rfl)]
        rw [mbind_run_ok (by rw [mliftE_applied, hchk])]
        rw [mbind_run_ok (by rw [mmodifyState_applied])]
        rw [mbind_run_ok (by rw [mliftE_applied]; rfl)]
        rw [spec]
        rw [mbind_run_ok (by rw [mliftE_applied]; rfl)]
        rw [mbind_run_ok (by rw [mmodifyState_applied])]
        dsimp only
        rw [alookup_aset_self]
        rw [spec]
        rfl
      rw [mbind_run_ok (show wrap_value_error p (set_one cf p (.funcP f)) P = _ from by
        rw [wrap_value_error, hso])]
      rw [set_items]
      rfl
    refine ⟨key, ?_⟩
    rw [stateOf, key]
    exact alookup_aset_self _ _ _
  · intro hsym
    have key : set cf [(p, .strP s)] P =
        (Except.ok (), { P with
          parameters := aset P.parameters p (.fS g2)
          parameters_spec := aset P.parameters_spec p constantUnit }) := by
      rw [set, mbind_run_ok (by rw [mliftE_applied, hcv3])]
      rw [set_items]
      have hso : set_one cf p (.strP s) P =
          (Except.ok (), { P with
            parameters := aset P.parameters p (.fS g2)
            parameters_spec := aset P.parameters_spec p constantUnit }) := by
        rw [set_one]
        rw [mbind_run_ok (by rw [mgetState_applied])]
        rw [mbind_run_ok (show mliftE (get_function P.sym (PyVal.strP s)) P =
          (Except.ok f, P) from by
          rw [mliftE_applied, show get_function P.sym (PyVal.strP s) = Except.ok f from hsym])]
        rw [mbind_run_ok (by rw [mliftE_applied, hchk])]
        rw [mbind_run_ok (by rw [mmodifyState_applied])]
        rw [mbind_run_ok (by rw [mliftE_applied]; rfl)]
        rw [spec]
        rw [mbind_run_ok (by rw [mliftE_applied]; rfl)]
        rw [mbind_run_ok (by rw [mmodifyState_applied])]
        dsimp only
        rw [alookup_aset_self]
        rw [spec]
        rfl
      rw [mbind_run_ok (show wrap_value_error p (set_one cf p (.strP s)) P = _ from by
        rw [wrap_value_error, hso])]
      rw [set_items]
      rfl
    refine ⟨key, ?_⟩
    rw [stateOf, key]
    exact alookup_aset_self _ _ _
  · intro hus
    have hgu : get_unit (set_unit_ref (.strP us)) = Except.ok u := by
      simp [set_unit_ref, get_unit, hus]
    have key : set cf [(p, .tupP [.funcP f, .strP us])] P =
        (Except.ok (), { P with
          parameters := aset P.parameters p (.fS g2)
          parameters_spec := aset P.parameters_spec p u }) := by
      rw [set, mbind_run_ok (by rw [mliftE_applied, hcv2])]
      rw [set_items]
      have hso : set_one cf p (.tupP [.funcP f, .strP us]) P =
          (Except.ok (), { P with
            parameters := aset P.parameters p (.fS g2)
            parameters_spec := aset P.parameters_spec p u }) := by
        rw [set_one]
        rw [mbind_run_ok (by rw [mgetState_applied])]
        rw [mbind_run_ok (by rw [mliftE_applied]; rfl)]
        rw [mbind_run_ok (by rw [mliftE_applied, hchk])]
        rw [mbind_run_ok (by rw [mmodifyState_applied])]
        simp only [List.head?]
        rw [mbind_run_ok (by rw [mliftE_applied, hgu])]
        rw [spec]
        rw [mbind_run_ok (by rw [mliftE_applied]; rfl)]
        rw [mbind_run_ok (by rw [mmodifyState_applied])]
        dsimp only
        rw [alookup_aset_self]
        rw [spec]
        rfl
      rw [mbind_run_ok (show wrap_value_error p (set_one cf p (.tupP [.funcP f, .strP us])) P = _ from by
        rw [wrap_value_error, hso])]
      rw [set_items]
      rfl
    refine ⟨key, ?_⟩
    rw [stateOf, key]
    exact alookup_aset_self _ _ _

/-- Witness for C9 at a concrete state: a parameter `y` whose spec was
declared as `ms` loses it to the dimensionless unit both when a bare
function is assigned and when a string expression compiling to that
function is assigned. -/
theorem set_function_overwrites_unit_spec_witness :
    alookup (stateOf (set 9 [("y", .funcP ⟨[], fun _ => Except.ok (.numV 1)⟩)])
        { defaultParams with
          parameters_spec := [("y", ⟨[("time", 1)], ⟨1, 1000⟩⟩)]
          sym := ⟨fun _ => Except.ok ⟨[], fun _ => Except.ok (.numV 1)⟩,
            fun s _ => Except.error (Err.symErr s)⟩ }).parameters_spec
      "y" = some constantUnit ∧
    alookup (stateOf (set 9 [("y", .strP "1")])
        { defaultParams with
          parameters_spec := [("y", ⟨[("time", 1)], ⟨1, 1000⟩⟩)]
          sym := ⟨fun _ => Except.ok ⟨[], fun _ => Except.ok (.numV 1)⟩,
            fun s _ => Except.error (Err.symErr s)⟩ }).parameters_spec
      "y" = some constantUnit := by
  have h := set_function_overwrites_unit_spec
    { defaultParams with
      parameters_spec := [("y", ⟨[("time", 1)], ⟨1, 1000⟩⟩)]
      sym := ⟨fun _ => Except.ok ⟨[], fun _ => Except.ok (.numV 1)⟩,
        fun s _ => Except.error (Err.symErr s)⟩ }
    9 "y" ⟨[], fun _ => Except.ok (.numV 1)⟩ ⟨[], fun _ => Except.ok (.numV 1)⟩
    "ms" "1" ⟨[("time", 1)], ⟨1, 1000⟩⟩ (by decide) rfl
  exact ⟨h.1.2, (h.2.1 rfl).2⟩

/-! ### C7: the end-to-end basis-scaling scenario -/

/-- C7 (confirmed): on a default engine (`default_scaled = true`), after
setting the basis scaling of the length dimension to `(2, "m")` and the
parameter `x` to `(1, "m")`, the scaled view of `x` reads `0.5` and the
unit-aware view reads the quantity `1 m`. -/
theorem end_to_end_basis_scaling_scenario :
    resultOf (get 3 9 [.nameA "x"] [])
        (stateOf (update 3 9 9 [("x", .tupP [.numP 1, .strP "m"])])
          (stateOf (scaling_set (.dictS [("length", .tupP [.numP 2, .strP "m"])]))
            defaultParams)) =
      Except.ok (.single (.numP ⟨1, 2⟩)) ∧
    resultOf (get 3 9 [.nameA "_x"] [])
        (stateOf (update 3 9 9 [("x", .tupP [.numP 1, .strP "m"])])
          (stateOf (scaling_set (.dictS [("length", .tupP [.numP 2, .strP "m"])]))
            defaultParams)) =
      Except.ok (.single (.quantP ⟨1, ⟨[("length", 1)], 1⟩⟩)) := by
  constructor
  · rfl
  · rfl

/-! ### C2: the multi-parameter update is not atomic -/

/-- Counterexample to C2 as stated: in the batch
`{a: (1, "ms"), b: (1, 2, 3)}` the value of `b` is a malformed quantity
literal, and after the failing update the assignment to `a` HAS been
applied to the store — `__update` applies assignments one at a time and a
mid-batch `ValueError` is re-raised without any rollback. -/
theorem update_malformed_value_not_atomic :
    (update 5 9 9 [("a", .tupP [.numP 1, .strP "ms"]),
        ("b", .tupP [.numP 1, .numP 2, .numP 3])] defaultParams).1 =
      Except.error (Err.couldNotAdd "b" Err.malformed) ∧
    alookup (update 5 9 9 [("a", .tupP [.numP 1, .strP "ms"]),
        ("b", .tupP [.numP 1, .numP 2, .numP 3])] defaultParams).2.parameters "a" =
      some (.qS ⟨1, ⟨[("time", 1)], ⟨1, 1000⟩⟩⟩) ∧
    alookup (update 5 9 9 [("a", .tupP [.numP 1, .strP "ms"]),
        ("b", .tupP [.numP 1, .numP 2, .numP 3])] defaultParams).2.parameters "b" =
      none := by
  exact ⟨rfl, rfl, rfl⟩

/-- C2 as amended: the durable multi-parameter update is atomic for the
failures that precede the assignment loop — an invalid name anywhere in
the batch is rejected (batched) before any state mutation, and a
propagation failure aborts the update with the parameter store and unit
specs untouched (only the scaling cache may have changed) — but a
malformed value mid-batch leaves the assignments made before it applied,
as the counterexample shows. -/
theorem update_atomic_until_assignment_loop (pf ef cf : Nat)
    (kwargs : List (String × PyVal)) (P : Params) :
    (∀ e, check_valid_params (kwargs.map Prod.fst) = Except.error e →
      update pf ef cf kwargs P = (Except.error e, P)) ∧
    (∀ e P1, check_valid_params (kwargs.map Prod.fst) = Except.ok () →
      process_override pf ef kwargs none P = (Except.error e, P1) →
      update pf ef cf kwargs P = (Except.error e, P1) ∧
        P1.parameters = P.parameters ∧ P1.parameters_spec = P.parameters_spec) := by
  constructor
  · intro e he
    rw [update]
    rw [mbind_run_err (by rw [mliftE_applied, he])]
  · intro e P1 hok hpo
    have hframe := process_override_frame pf ef kwargs none P
    rw [hpo] at hframe
    refine ⟨?_, hframe.2.1, hframe.1⟩
    rw [update]
    rw [mbind_run_ok (by rw [mliftE_applied, hok])]
    rw [mbind_run_err hpo]

/-- Witness for C2's amended theorem: a batch with the invalid name `1x`
is rejected with the state exactly unchanged. -/
theorem update_atomic_until_assignment_loop_witness :
    update 5 9 9 [("1x", .numP 1)] defaultParams =
      (Except.error (Err.invalidParams ["1x"]), defaultParams) :=
  (update_atomic_until_assignment_loop 5 9 9 [("1x", .numP 1)] defaultParams).1
    (Err.invalidParams ["1x"]) rfl

/-! ### C8: setting a parameter in ms round-trips -/

theorem headUnderscore_append (s : String) : headUnderscore ("_" ++ s) = true := by
  unfold headUnderscore
  rw [String.data_append]
  rfl

theorem drop_one_append_underscore (s : String) : ("_" ++ s).drop 1 = s := by
  apply String.ext
  rw [String.data_drop, String.data_append]
  rfl

theorem get_pam_name_append (s : String) : get_pam_name ("_" ++ s) = s := by
  unfold get_pam_name
  rw [headUnderscore_append, if_pos rfl]
  exact drop_one_append_underscore s

theorem cache_lookup_append (c : List (Units × Flt)) (u : Units) (s : Flt)
    (hc : cache_lookup c u = none) (hrefl : unitEqb u u = true) :
    cache_lookup (c ++ [(u, s)]) u = some s := by
  induction c with
  | nil => simp [cache_lookup, hrefl]
  | cons p rest ih =>
    obtain ⟨u1, s1⟩ := p
    rw [cache_lookup] at hc
    by_cases h : unitEqb u1 u = true
    · rw [if_pos h] at hc
      cases hc
    · rw [if_neg h] at hc
      rw [List.cons_append, cache_lookup, if_neg h]
      exact ih hc

/-- A cached scaling answer is stable: immediately after `__unit_scaling`
returns, asking again returns the same factor without changing the state. -/
theorem unit_scaling_stable (u : Units) (hrefl : unitEqb u u = true)
    (P P1 : Params) (s : Flt) (h : unit_scaling u P = (Except.ok s, P1)) :
    unit_scaling u P1 = (Except.ok s, P1) := by
  unfold unit_scaling at h ⊢
  rcases hc : cache_lookup P.scaling_cache u with _ | s0
  · rw [hc] at h
    rcases hcalc : unit_scaling_calc P u with e | sc
    · rw [hcalc] at h
      cases h
    · rw [hcalc] at h
      rw [Prod.mk.injEq] at h
      obtain ⟨h1, h2⟩ := h
      injection h1 with h1
      subst h1
      subst h2
      rw [show ({ P with scaling_cache := P.scaling_cache ++ [(u, sc)] } : Params).scaling_cache =
            P.scaling_cache ++ [(u, sc)] from rfl,
        cache_lookup_append P.scaling_cache u sc hc hrefl]
  · rw [hc] at h
    rw [Prod.mk.injEq] at h
    obtain ⟨h1, h2⟩ := h
    injection h1 with h1
    subst h1
    subst h2
    rw [hc]

/-- The `ms` unit of the interface model. -/
def msUnit : Units := ⟨[("time", 1)], ⟨1, 1000⟩⟩

/-- The state a fresh `name := (v, "ms")` update produces. -/
def msState (P : Params) (name : String) (v : Flt) : Params :=
  { P with
    parameters := aset P.parameters name (.qS ⟨v, msUnit⟩)
    parameters_spec := aset P.parameters_spec name msUnit }

/-- C8 (confirmed): setting a fresh parameter via `(v, "ms")` stores the
quantity `v ms`; the unit-aware view reads back exactly `v ms`; the scaled
view reads `v` divided by the `ms` scaling factor, and converting that
scaled number back through the declared unit gives a quantity in `ms`
numerically equal to `v` (numerics are exact rationals; IEEE rounding is
out of scope). -/
theorem set_ms_round_trip (P : Params) (name : String) (v : Flt) (pf ef cf : Nat)
    (hvalid : is_valid_param name = true)
    (hnu : headUnderscore name = false)
    (hfresh : alookup P.parameters name = none)
    (hds : P.default_scaled = true) :
    update (pf+2) ef cf [(name, .tupP [.numP v, .strP "ms"])] P =
      (Except.ok (), msState P name v) ∧
    get (pf+1) (ef+2) [.nameA ("_" ++ name)] [] (msState P name v) =
      (Except.ok (.single (.quantP ⟨v, msUnit⟩)), msState P name v) ∧
    (∀ u P3, unit_scaling msUnit (msState P name v) = (Except.ok u, P3) →
      get (pf+1) (ef+2) [.nameA name] [] (msState P name v) =
        (Except.ok (.single (.numP (qdiv v u))), P3) ∧
      convert (.numP (qdiv v u)) none (some "ms") P3 =
        (Except.ok (.quantP ⟨qmul (qdiv v u) u, msUnit⟩), P3) ∧
      qeqb (qmul (qdiv v u) u) v = true) := by
  have hcv : check_valid_params ([(name, PyVal.tupP [.numP v, .strP "ms"])].map Prod.fst) =
      Except.ok () := by
    simp [check_valid_params, hvalid]
  refine ⟨?_, ?_, ?_⟩
  · rw [update]
    rw [mbind_run_ok (by rw [mliftE_applied, hcv])]
    have hpo : process_override (pf+2) ef [(name, .tupP [.numP v, .strP "ms"])] none P =
        (Except.ok [(name, .tupP [.numP v, .strP "ms"])], P) := by
      rw [process_override]
      simp only [Option.getD, akeys, List.map]
      rw [if_neg (by simp)]
      rw [mbind_run_ok (show po_phase1 ef _ _ _ P = (Except.ok _, P) from ?_)]
      rw [mbind_run_ok (show po_phase2 ef _ _ _ [] P = (Except.ok [], P) from ?_)]
      · rw [show aupdate [(name, PyVal.tupP [.numP v, .strP "ms"])] [] =
            [(name, PyVal.tupP [.numP v, .strP "ms"])] from rfl]
        rw [process_override]
        simp [akeys]
      · rw [po_phase2]
        simp only [mbind_applied, mgetState_applied]
        rw [if_neg (by simp [hfresh])]
        rw [po_phase2]
        rfl
      · rw [po_phase1]
        rw [if_pos (by simp)]
        simp only [mbind_applied, mgetState_applied, mliftE_applied]
        rw [po_phase1]
        rfl
    rw [mbind_run_ok hpo]
    rw [update_items]
    simp only [mbind_applied, mgetState_applied, hfresh]
    rw [set]
    rw [mbind_run_ok (by rw [mliftE_applied, hcv])]
    rw [set_items]
    have hso : set_one cf name (.tupP [.numP v, .strP "ms"]) P =
        (Except.ok (), msState P name v) := by
      rw [set_one]
      rw [set_plain]
      rw [mbind_run_ok (show get_quantity (.tupP [.numP v, .strP "ms"]) (some name) none false P =
        (Except.ok (.quantP ⟨v, msUnit⟩), P) from rfl)]
      dsimp only
      rw [mbind_run_ok (by rw [mmodifyState_applied])]
      rw [spec]
      rw [mbind_run_ok (by rw [mliftE_applied]; rfl)]
      rw [mbind_run_ok (by rw [mmodifyState_applied])]
      dsimp only
      rw [alookup_aset_self]
      dsimp only
      rw [aset_aset]
      rw [spec]
      rfl
      all_goals exact fun _ h => nomatch h
    rw [mbind_run_ok (show wrap_value_error name _ P = (Except.ok (), msState P name v) from by
      rw [wrap_value_error, hso])]
    rw [set_items]
    rw [mpure_applied]
    rw [update_items]
    rfl
  · rw [get]
    rw [mbind_run_ok (show process_override (pf+1) (ef+2) [] none (msState P name v) =
      (Except.ok [], msState P name v) from by rw [process_override]; rfl)]
    rw [get_params]
    rw [mbind_run_ok (show get_param (ef+1) (.nameA ("_" ++ name)) [] (msState P name v) =
      (Except.ok (.quantP ⟨v, msUnit⟩), msState P name v) from ?_)]
    · rfl
    · rw [get_param]
      simp only [mbind_applied, mgetState_applied]
      rw [if_neg (by
        simp only [get_pam_name_append, Bool.not_eq_true, Bool.and_eq_true,
          Bool.not_eq_true']
        intro hcontra
        have : acontains (msState P name v).parameters name = true := by
          simp [acontains, msState, alookup_aset_self]
        simp [this] at hcontra)]
      rw [headUnderscore_append]
      simp only [if_true]
      rw [drop_one_append_underscore]
      rw [show alookup ([] : AList PyVal) name = none from rfl]
      rw [show alookup (msState P name v).parameters name = some (.qS ⟨v, msUnit⟩) from by
        simp [msState, alookup_aset_self]]
      rw [show (msState P name v).default_scaled = true from hds]
      rfl
  · intro u P3 hu
    have hpam : get_pam_name name = name := by
      unfold get_pam_name
      rw [hnu]
      simp
    refine ⟨?_, ?_, ?_⟩
    · rw [get]
      rw [mbind_run_ok (show process_override (pf+1) (ef+2) [] none (msState P name v) =
        (Except.ok [], msState P name v) from by rw [process_override]; rfl)]
      rw [get_params]
      rw [mbind_run_ok (show get_param (ef+1) (.nameA name) [] (msState P name v) =
        (Except.ok (.numP (qdiv v u)), P3) from ?_)]
      · rfl
      · rw [get_param]
        simp only [mbind_applied, mgetState_applied]
        rw [if_neg (by
          simp only [hpam, Bool.not_eq_true, Bool.and_eq_true, Bool.not_eq_true']
          intro hcontra
          have hmem : acontains (msState P name v).parameters name = true := by
            simp [acontains, msState, alookup_aset_self]
          simp [hmem] at hcontra)]
        rw [hnu]
        simp only [Bool.false_eq_true, if_false]
        rw [show alookup ([] : AList PyVal) name = none from rfl]
        rw [show alookup (msState P name v).parameters name = some (.qS ⟨v, msUnit⟩) from by
          simp [msState, alookup_aset_self]]
        rw [show (msState P name v).default_scaled = true from hds]
        dsimp only
        rw [show get_quantity (.quantP ⟨v, msUnit⟩) (some name) none true =
          get_quantity_tail ⟨v, msUnit⟩ true from rfl]
        rw [get_quantity_tail]
        simp only [if_true]
        rw [mbind_run_ok (show unit_scaling (Quantity.mk v msUnit).units (msState P name v) =
          (Except.ok u, P3) from hu)]
        rfl
    · rw [convert]
      rw [get_quantity]
      rw [mbind_run_ok (by rw [mgetState_applied])]
      rw [mbind_run_ok (by rw [mliftE_applied]; rfl)]
      rw [mbind_run_ok (show unit_scaling (⟨[("time", 1)], ⟨1, 1000⟩⟩ : Units) P3 =
        (Except.ok u, P3) from unit_scaling_stable msUnit (by decide) _ _ _ hu)]
      rw [get_quantity_tail]
      rfl
    · simp only [qeqb, qmul, qdiv, beq_iff_eq]
      ring

/-- Witness for `set_ms_round_trip`: concrete run with name `"x"`, value `7`. -/
theorem set_ms_round_trip_witness :
    (is_valid_param "x" = true ∧ headUnderscore "x" = false ∧
     alookup defaultParams.parameters "x" = none ∧ defaultParams.default_scaled = true) ∧
    (update 3 1 1 [("x", PyVal.tupP [PyVal.numP 7, PyVal.strP "ms"])] defaultParams =
       (Except.ok (), msState defaultParams "x" 7) ∧
     get 2 3 [OArg.nameA ("_" ++ "x")] [] (msState defaultParams "x" 7) =
       (Except.ok (GPRes.single (PyVal.quantP ⟨7, msUnit⟩)), msState defaultParams "x" 7) ∧
     (∀ u P3, unit_scaling msUnit (msState defaultParams "x" 7) = (Except.ok u, P3) →
       get 2 3 [OArg.nameA "x"] [] (msState defaultParams "x" 7) =
         (Except.ok (GPRes.single (PyVal.numP (qdiv 7 u))), P3) ∧
       convert (PyVal.numP (qdiv 7 u)) none (some "ms") P3 =
         (Except.ok (PyVal.quantP ⟨qmul (qdiv 7 u) u, msUnit⟩), P3) ∧
       qeqb (qmul (qdiv 7 u) u) 7 = true)) :=
  ⟨⟨by decide, by decide, rfl, rfl⟩,
   set_ms_round_trip defaultParams "x" 7 1 1 1 (by decide) (by decide) rfl rfl⟩

/-! ### C1: a propagation conflict aborts with `overspecified` -/

/-- Splitting the reconcile loop at its first conflicting key: if no key of
`vpre` conflicts and `k` carries a value unequal to its current override or
to an earlier derivation of this pass, the loop raises `overspecified k`. -/
theorem po_check_first_conflict (vpre : AList PyVal) (k : String) (v : PyVal)
    (vpost kw new : AList PyVal)
    (hpre : po_check vpre kw new = Except.ok ())
    (hconf :
      (∃ kv, alookup kw k = some kv ∧ pyEqb v kv = false) ∨
      (∃ nv, alookup new k = some nv ∧ pyEqb v nv = false)) :
    po_check (vpre ++ (k, v) :: vpost) kw new =
      Except.error (Err.overspecified k) := by
  induction vpre with
  | nil =>
    have hc : ((match alookup kw k with
        | some kv => !(pyEqb v kv)
        | none => false) ||
      (match alookup new k with
        | some nv => !(pyEqb v nv)
        | none => false)) = true := by
      rcases hconf with ⟨kv, hkv, hne⟩ | ⟨nv, hnv, hne⟩
      · simp [hkv, hne]
      · simp [hnv, hne]
    rw [List.nil_append, po_check]
    rw [hc]
    rfl
  | cons hd tl ih =>
    obtain ⟨key, w⟩ := hd
    rw [po_check] at hpre
    rw [List.cons_append, po_check]
    split at hpre
    next hc => exact absurd hpre (by simp)
    next hc =>
      rw [if_neg hc]
      exact ih hpre

/-- Running the expansion loop of `__process_override` on an appended item
list composes: the accumulator and state thread through the first part. -/
theorem po_phase2_append (ef : Nat) (pre rest : List (String × PyVal))
    (r : List String) (kw new : AList PyVal) (P : Params) :
    po_phase2 ef (pre ++ rest) r kw new P =
      (match po_phase2 ef pre r kw new P with
       | (Except.ok new1, P1) => po_phase2 ef rest r kw new1 P1
       | (Except.error e, P1) => (Except.error e, P1)) := by
  induction pre generalizing new P with
  | nil => rfl
  | cons hd tl ih =>
    obtain ⟨pam, val⟩ := hd
    rw [List.cons_append, po_phase2]
    conv_rhs => rw [po_phase2]
    simp only [mbind_applied, mgetState_applied]
    split
    · rcases hev : eval_function ef pam kw P with ⟨er, P1⟩
      cases er with
      | error e =>
        rw [mbind_run_err hev, mbind_run_err hev]
      | ok vals =>
        rw [mbind_run_ok hev, mbind_run_ok hev]
        rcases hchk : po_check vals kw new with e | u
        · rfl
        · exact ih (aupdate new vals) P1
    · exact ih new P

/-- C1 (confirmed): during override propagation, as soon as a pass derives
(by inverse evaluation of a stored function) a value for a key that is
unequal to that key's value in the current override set, or unequal to a
value already derived for the same key earlier in the same pass, the whole
propagation returns `overspecified` naming that key — no override set is
returned. -/
theorem process_override_conflict_aborts
    (pf ef : Nat) (kwargs : AList PyVal) (restrict : Option (List String))
    (P P1 P2 P3 : Params) (kw1 newAcc : AList PyVal)
    (pre post : List (String × PyVal)) (pam : String) (val : PyVal)
    (vpre vpost : AList PyVal) (k : String) (v : PyVal)
    (hr : ¬ ((restrict.getD (akeys kwargs)).length = 0))
    (h1 : po_phase1 ef kwargs (restrict.getD (akeys kwargs)) kwargs P =
      (Except.ok kw1, P1))
    (hsplit : kw1 = pre ++ (pam, val) :: post)
    (h2 : po_phase2 ef pre (restrict.getD (akeys kwargs)) kw1 [] P1 =
      (Except.ok newAcc, P2))
    (hres : (restrict.getD (akeys kwargs)).contains pam = true)
    (hfun : ∃ f, alookup P2.parameters pam = some (SVal.fS f))
    (hev : eval_function ef pam kw1 P2 =
      (Except.ok (vpre ++ (k, v) :: vpost), P3))
    (hpre : po_check vpre kw1 newAcc = Except.ok ())
    (hconf :
      (∃ kv, alookup kw1 k = some kv ∧ pyEqb v kv = false) ∨
      (∃ nv, alookup newAcc k = some nv ∧ pyEqb v nv = false)) :
    process_override (pf+1) ef kwargs restrict P =
      (Except.error (Err.overspecified k), P3) := by
  subst hsplit
  rw [process_override]
  rw [if_neg hr]
  rw [mbind_run_ok h1]
  refine mbind_run_err ?_
  rw [po_phase2_append]
  rw [h2]
  dsimp only
  rw [po_phase2]
  simp only [mbind_applied, mgetState_applied]
  obtain ⟨f, hf⟩ := hfun
  rw [if_pos (show ((restrict.getD (akeys kwargs)).contains pam &&
      (match alookup P2.parameters pam with
        | some (SVal.fS _) => true
        | _ => false)) = true from by rw [hres, hf]; rfl)]
  rw [mbind_run_ok hev]
  refine mbind_run_err ?_
  rw [mliftE_applied, po_check_first_conflict vpre k v vpost _ _ hpre hconf]

/-- The function stored at `z` for the C1 witness run: `z = f(x, z)` whose
inverse returns `x = 2`. -/
def fzC1 : VFunc := ⟨["x", "z"], fun _ => Except.ok (Val.tupV [Val.numV 2])⟩

/-- The C1 witness store: `z` is function-valued, the scaling cache already
holds the constant unit so the run leaves the state untouched. -/
def Pc1 : Params := ⟨[], [("z", SVal.fS fzC1)], [], [], [(constantUnit, 1)], false, noSym⟩

/-- The C1 witness override set: both `z` and `x` overridden, and the
inverse of `z` derives `x = 2 ≠ 5`. -/
def kwC1 : AList PyVal := [("z", PyVal.numP 4), ("x", PyVal.numP 5)]

/-- Witness for `process_override_conflict_aborts`: overriding `z` and `x`
together when `z = f(x, z)` inversely derives `x = 2` contradicting the
override `x = 5` aborts with `overspecified "x"`. -/
theorem process_override_conflict_aborts_witness :
    process_override 1 9 kwC1 none Pc1 =
      (Except.error (Err.overspecified "x"), Pc1) :=
  process_override_conflict_aborts 0 9 kwC1 none Pc1 Pc1 Pc1 Pc1 kwC1 []
    [] [("x", PyVal.numP 5)] "z" (PyVal.numP 4)
    [] [] "x" (PyVal.quantP ⟨2, constantUnit⟩)
    (by decide) rfl rfl rfl (by decide) ⟨fzC1, rfl⟩ rfl rfl
    (Or.inl ⟨PyVal.numP 5, rfl, rfl⟩)

/-! ### C4: inverse evaluation keying and indexing -/

/-- The function stored at `z` for the C4 runs: `z = f(_x, z)` whose inverse
returns the pair `(7, 0)`. -/
def fzC4 : VFunc := ⟨["_x", "z"], fun _ => Except.ok (Val.tupV [Val.numV 7, Val.numV 0])⟩

/-- The C4 store: `z` function-valued over `_x`, `x` a plain quantity. -/
def Pc4 : Params :=
  ⟨[], [("z", SVal.fS fzC4), ("x", SVal.qS ⟨3, constantUnit⟩)], [], [],
    [(constantUnit, 1)], false, noSym⟩

/-- C4 (counterexample): with `z` stored as a function of `_x` and `z`,
inverse evaluation of `z` keys the derived mapping by the verbatim argument
name `_x`; looking it up under the stripped name `x`, as the spec
prescribes, finds nothing. -/
theorem ef_inverse_keys_not_stripped :
    eval_function 9 "z" [("z", PyVal.numP 4)] Pc4 =
      (Except.ok [("_x", PyVal.quantP ⟨7, constantUnit⟩)], Pc4) ∧
    alookup [("_x", PyVal.quantP ⟨7, constantUnit⟩)] "x" = none ∧
    alookup [("_x", PyVal.quantP ⟨7, constantUnit⟩)] "_x" =
      some (PyVal.quantP ⟨7, constantUnit⟩) :=
  ⟨rfl, rfl, rfl⟩

/-- A run that threw cannot have returned. -/
theorem err_ne_ok {α : Type} {e : Err} {a : α} {P Q : Params}
    (h : ((Except.error e : Except Err α), P) = (Except.ok a, Q)) : False := by
  injection h with h1 h2
  exact Except.noConfusion h1

/-- The inverse loop of `__eval_function` never touches a key that is not
one of the remaining argument names. -/
theorem ef_inverse_alookup_frame (rs : List Val) (args : List String)
    (i : Nat) (param : String) (acc : AList PyVal) (P : Params)
    (vals : AList PyVal) (P2 : Params) (key : String)
    (hk : ∀ a ∈ args, ¬ (a = key))
    (h : ef_inverse rs args i param acc P = (Except.ok vals, P2)) :
    alookup vals key = alookup acc key := by
  induction args generalizing i acc P with
  | nil =>
    rw [ef_inverse, mpure_applied] at h
    injection h with h1 h2
    injection h1 with h1
    subst h1
    rfl
  | cons arg rest ih =>
    rw [ef_inverse] at h
    generalize hp : (if headUnderscore arg then String.drop arg 1 else arg) = pam at h
    split at h
    · rcases hrv : rs.get? i with _ | rv
      · simp only [hrv] at h
        exact (err_ne_ok h).elim
      · simp only [hrv] at h
        rcases hq : get_quantity (Val.toPy rv) (some pam) none false P with ⟨er, Pq⟩
        cases er with
        | error e =>
          rw [mbind_run_err hq] at h
          exact (err_ne_ok h).elim
        | ok q =>
          rw [mbind_run_ok hq] at h
          have h2 : ef_inverse rs rest (i+1) param (aset acc arg q) Pq =
              (Except.ok vals, P2) := h
          have hrest := ih (i+1) (aset acc arg q) Pq
            (fun a ha => hk a (List.mem_cons_of_mem _ ha)) h2
          rw [hrest, alookup_aset_other]
          exact hk arg (List.mem_cons_self _ _)
    · exact ih (i+1) acc P (fun a ha => hk a (List.mem_cons_of_mem _ ha)) h

/-- C4 (corrected): for a successful run of the inverse loop of
`__eval_function` over distinct declared arguments, every argument whose
stripped name differs from the target is mapped — under its verbatim
(unstripped) name, not the stripped one — to the coercion (tagged with the
unit spec of the stripped name) of the returned element at that argument\'s
position in the FULL declared argument list, not its position with the
target excluded. -/
theorem ef_inverse_amended (rs : List Val) (args : List String) (i : Nat)
    (param : String) (acc : AList PyVal) (P : Params)
    (vals : AList PyVal) (P2 : Params)
    (hnd : args.Nodup)
    (h : ef_inverse rs args i param acc P = (Except.ok vals, P2)) :
    ∀ j a, args.get? j = some a → ¬ (get_pam_name a = param) →
      ∃ rv q Pq Pq2, rs.get? (i + j) = some rv ∧
        get_quantity (Val.toPy rv) (some (get_pam_name a)) none false Pq =
          (Except.ok q, Pq2) ∧
        alookup vals a = some q := by
  induction args generalizing i acc P with
  | nil =>
    intro j a hget hne
    simp at hget
  | cons arg rest ih =>
    intro j a hget hne
    rw [ef_inverse] at h
    generalize hp : (if headUnderscore arg then String.drop arg 1 else arg) = pam at h
    have hgp : get_pam_name arg = pam := by rw [get_pam_name, hp]
    split at h
    next hpam =>
      rcases hrv : rs.get? i with _ | rv
      · simp only [hrv] at h
        exact (err_ne_ok h).elim
      · simp only [hrv] at h
        rcases hq : get_quantity (Val.toPy rv) (some pam) none false P with ⟨er, Pq⟩
        cases er with
        | error e =>
          rw [mbind_run_err hq] at h
          exact (err_ne_ok h).elim
        | ok q =>
          rw [mbind_run_ok hq] at h
          have h2 : ef_inverse rs rest (i+1) param (aset acc arg q) Pq =
              (Except.ok vals, P2) := h
          rcases j with _ | j
          · injection hget with hget
            subst hget
            refine ⟨rv, q, P, Pq, ?_, ?_, ?_⟩
            · rw [Nat.add_zero]
              exact hrv
            · rw [hgp]
              exact hq
            · have harg : ¬ arg ∈ rest := (List.nodup_cons.mp hnd).1
              rw [ef_inverse_alookup_frame rs rest (i+1) param (aset acc arg q) Pq
                vals P2 arg (fun a ha heq => harg (heq ▸ ha)) h2]
              exact alookup_aset_self _ _ _
          · obtain ⟨rv2, q2, Pq1, Pq2, h1, h2b, h3⟩ :=
              ih (i+1) (aset acc arg q) Pq (List.nodup_cons.mp hnd).2 h2 j a hget hne
            exact ⟨rv2, q2, Pq1, Pq2,
              by rw [show i + (j+1) = (i+1) + j from by omega]; exact h1, h2b, h3⟩
    next hpam =>
      rcases j with _ | j
      · injection hget with hget
        subst hget
        rw [hgp] at hne
        exact absurd (not_not.mp hpam) hne
      · obtain ⟨rv2, q2, Pq1, Pq2, h1, h2b, h3⟩ :=
          ih (i+1) acc P (List.nodup_cons.mp hnd).2 h j a hget hne
        exact ⟨rv2, q2, Pq1, Pq2,
          by rw [show i + (j+1) = (i+1) + j from by omega]; exact h1, h2b, h3⟩

/-- Witness for `ef_inverse_amended`: the concrete C4 run, read at the
argument `_x` (full-list position 0). -/
theorem ef_inverse_amended_witness :
    ∃ rv q Pq Pq2,
      List.get? [Val.numV 7, Val.numV 0] (0 + 0) = some rv ∧
      get_quantity (Val.toPy rv) (some (get_pam_name "_x")) none false Pq =
        (Except.ok q, Pq2) ∧
      alookup [("_x", PyVal.quantP ⟨7, constantUnit⟩)] "_x" = some q :=
  ef_inverse_amended [Val.numV 7, Val.numV 0] ["_x", "z"] 0 "z" [] Pc4
    [("_x", PyVal.quantP ⟨7, constantUnit⟩)] Pc4 (by decide) rfl 0 "_x" rfl
    (by decide)

/-! ### C6: termination of override propagation -/

/-- The function stored at `_x` for the C6 runs: its declared argument is
its own verbatim name, so the definition-time check removes it and passes. -/
def fC6 : VFunc := ⟨["_x"], fun _ => Except.ok (Val.quantV ⟨4, constantUnit⟩)⟩

/-- The C6 store: a plain `x` and a function-valued `_x` over `_x`. -/
def Pc6 : Params :=
  ⟨[], [("x", SVal.qS ⟨3, constantUnit⟩), ("_x", SVal.fS fC6)], [], [], [], true, noSym⟩

/-- The C6 override set: `_x` overridden with the value its own inverse
re-derives, so every pass derives the key `_x` anew without a conflict. -/
def kwC6 : AList PyVal := [("_x", PyVal.quantP ⟨4, constantUnit⟩)]

/-- One C6 pass reproduces the same propagation state with one unit of pass
fuel consumed. -/
theorem c6_step (pf : Nat) (restrict : Option (List String))
    (hr : restrict.getD (akeys kwC6) = ["_x"]) :
    process_override (pf+1) 9 kwC6 restrict Pc6 =
      process_override pf 9 kwC6 (some ["_x"]) Pc6 := by
  rw [process_override]
  rw [hr]
  rw [if_neg (by decide)]
  rw [mbind_run_ok (show po_phase1 9 kwC6 ["_x"] kwC6 Pc6 = (Except.ok kwC6, Pc6) from rfl)]
  rw [mbind_run_ok (show po_phase2 9 kwC6 ["_x"] kwC6 [] Pc6 =
    (Except.ok [("_x", PyVal.quantP ⟨4, constantUnit⟩)], Pc6) from rfl)]
  rfl

/-- The C6 run exhausts every amount of pass fuel. -/
theorem c6_loop (pf : Nat) : ∀ (restrict : Option (List String)),
    restrict.getD (akeys kwC6) = ["_x"] →
    process_override pf 9 kwC6 restrict Pc6 = (Except.error Err.fuelPass, Pc6) := by
  induction pf with
  | zero => intro restrict hr; rfl
  | succ pf ih =>
    intro restrict hr
    rw [c6_step pf restrict hr]
    exact ih (some ["_x"]) rfl

/-- C6 (counterexample): the store `Pc6` passes the definition-time cycle
check (the declared argument `_x` is the exact self-name, which the check
removes before expanding), yet overriding `_x` re-derives the key `_x` on
every pass with an equal value, so the propagation recursion exhausts every
amount of pass fuel — it never terminates, refuting the claim that the
check alone bounds the recursion. -/
theorem process_override_check_no_termination :
    (check_function 9 Pc6 "_x" fC6 none = Except.ok fC6) ∧
    ((∃ pfuel, ¬ ((process_override pfuel 9 kwC6 none Pc6).1 =
        Except.error Err.fuelPass)) = False) := by
  refine ⟨rfl, eq_false ?_⟩
  rintro ⟨pf, hpf⟩
  exact hpf (by rw [c6_loop pf none rfl])

/-- A pair of the list is found by `acontains`. -/
theorem acontains_of_mem {α : Type} (l : AList α) (k : String) (v : α)
    (h : (k, v) ∈ l) : acontains l k = true := by
  induction l with
  | nil => exact absurd h (List.not_mem_nil _)
  | cons hd tl ih =>
    obtain ⟨k1, v1⟩ := hd
    rcases List.mem_cons.mp h with he | hm
    · cases he
      simp [acontains, alookup]
    · by_cases hk : k1 = k
      · simp [acontains, alookup, hk]
      · simpa [acontains, alookup, hk] using ih hm

/-- A key of `aupdate l m` is a key of `l` or of `m`. -/
theorem mem_akeys_aupdate {α : Type} (l m : AList α) (key : String)
    (h : key ∈ akeys (aupdate l m)) : key ∈ akeys l ∨ key ∈ akeys m := by
  induction m generalizing l with
  | nil => exact Or.inl h
  | cons hd tl ih =>
    obtain ⟨k, v⟩ := hd
    rw [aupdate] at h
    rcases ih (aset l k v) h with h1 | h1
    · rw [akeys_aset] at h1
      by_cases hca : acontains l k = true
      · rw [if_pos hca] at h1
        exact Or.inl h1
      · rw [if_neg hca] at h1
        rcases List.mem_append.mp h1 with h2 | h2
        · exact Or.inl h2
        · have : key = k := by simpa using h2
          subst this
          exact Or.inr (List.mem_cons_self _ _)
    · exact Or.inr (List.mem_cons_of_mem _ h1)

/-- Every key the inverse loop adds is one of the declared argument names
whose stripped form differs from the target. -/
theorem ef_inverse_keys (rs : List Val) (args : List String) (i : Nat)
    (param : String) (acc : AList PyVal) (P : Params)
    (vals : AList PyVal) (P2 : Params)
    (h : ef_inverse rs args i param acc P = (Except.ok vals, P2)) :
    ∀ key, key ∈ akeys vals → key ∈ akeys acc ∨
      (key ∈ args ∧ ¬ (get_pam_name key = param)) := by
  induction args generalizing i acc P with
  | nil =>
    rw [ef_inverse, mpure_applied] at h
    injection h with h1 h2
    injection h1 with h1
    subst h1
    exact fun key hk => Or.inl hk
  | cons arg rest ih =>
    rw [ef_inverse] at h
    generalize hp : (if headUnderscore arg then String.drop arg 1 else arg) = pam at h
    have hgp : get_pam_name arg = pam := by rw [get_pam_name, hp]
    split at h
    next hpam =>
      rcases hrv : rs.get? i with _ | rv
      · simp only [hrv] at h
        exact (err_ne_ok h).elim
      · simp only [hrv] at h
        rcases hq : get_quantity (Val.toPy rv) (some pam) none false P with ⟨er, Pq⟩
        cases er with
        | error e =>
          rw [mbind_run_err hq] at h
          exact (err_ne_ok h).elim
        | ok q =>
          rw [mbind_run_ok hq] at h
          have h2 : ef_inverse rs rest (i+1) param (aset acc arg q) Pq =
              (Except.ok vals, P2) := h
          intro key hk
          rcases ih (i+1) (aset acc arg q) Pq h2 key hk with h4 | h4
          · rw [akeys_aset] at h4
            by_cases hca : acontains acc arg = true
            · rw [if_pos hca] at h4
              exact Or.inl h4
            · rw [if_neg hca] at h4
              rcases List.mem_append.mp h4 with h5 | h5
              · exact Or.inl h5
              · have : key = arg := by simpa using h5
                subst this
                exact Or.inr ⟨List.mem_cons_self _ _, by rw [hgp]; exact hpam⟩
          · exact Or.inr ⟨List.mem_cons_of_mem _ h4.1, h4.2⟩
    next hpam =>
      intro key hk
      rcases ih (i+1) acc P h key hk with h4 | h4
      · exact Or.inl h4
      · exact Or.inr ⟨List.mem_cons_of_mem _ h4.1, h4.2⟩

/-- When the target carries an override, a successful `__eval_function` run
found a stored function and only derives keys among its verbatim argument
names whose stripped form differs from the target. -/
theorem eval_function_new_keys (ef : Nat) (pam : String) (kw : AList PyVal)
    (P : Params) (vals : AList PyVal) (P1 : Params)
    (hc : acontains kw pam = true)
    (h : eval_function ef pam kw P = (Except.ok vals, P1)) :
    ∃ f, alookup P.parameters pam = some (SVal.fS f) ∧
      ∀ key, key ∈ akeys vals → key ∈ f.args ∧ ¬ (get_pam_name key = pam) := by
  match ef with
  | 0 =>
    rw [eval_function] at h
    exact (err_ne_ok h).elim
  | (ef+1) =>
    rw [eval_function] at h
    rw [mbind_run_ok (show mgetState P = (Except.ok P, P) from rfl)] at h
    rcases hsf : alookup P.parameters pam with _ | sv
    · simp only [hsf] at h
      exact (err_ne_ok h).elim
    · cases sv with
      | qS q =>
        simp only [hsf] at h
        exact (err_ne_ok h).elim
      | fS f =>
        simp only [hsf] at h
        refine ⟨f, rfl, ?_⟩
        split at h
        next hguard => exact (err_ne_ok h).elim
        next hguard =>
          rcases hec : ef_collect ef f.args pam kw P with ⟨er, Pa⟩
          cases er with
          | error e =>
            rw [mbind_run_err hec] at h
            exact (err_ne_ok h).elim
          | ok pargs =>
            rw [mbind_run_ok hec] at h
            rcases htv : PyVal.toValList pargs with _ | vs
            · simp only [htv] at h
              exact (err_ne_ok h).elim
            · simp only [htv] at h
              rcases hb : f.body vs with e | r
              · rw [mbind_run_err (show mliftE (f.body vs) Pa = (Except.error e, Pa)
                  from by rw [mliftE_applied, hb])] at h
                exact (err_ne_ok h).elim
              · rw [mbind_run_ok (show mliftE (f.body vs) Pa = (Except.ok r, Pa)
                  from by rw [mliftE_applied, hb])] at h
                intro key hk
                rcases ef_inverse_keys _ f.args 0 pam [] Pa vals P1 h key hk with h4 | h4
                · simp [akeys] at h4
                · exact h4

/-- Every key the expansion loop of `__process_override` derives (over items
whose names all carry overrides) comes from a restricted function-valued
parameter: it is one of that function\'s verbatim argument names and its
stripped form differs from that parameter. -/
theorem po_phase2_new_keys (ef : Nat) (items : List (String × PyVal))
    (r : List String) (kw new : AList PyVal) (P : Params)
    (new2 : AList PyVal) (P2 : Params)
    (hik : ∀ pam v, (pam, v) ∈ items → acontains kw pam = true)
    (h : po_phase2 ef items r kw new P = (Except.ok new2, P2)) :
    ∀ key, key ∈ akeys new2 → key ∈ akeys new ∨
      ∃ pam f, pam ∈ r ∧ alookup P.parameters pam = some (SVal.fS f) ∧
        key ∈ f.args ∧ ¬ (get_pam_name key = pam) := by
  induction items generalizing new P with
  | nil =>
    rw [po_phase2, mpure_applied] at h
    injection h with h1 h2
    injection h1 with h1
    subst h1
    exact fun key hk => Or.inl hk
  | cons hd tl ih =>
    obtain ⟨pam, val⟩ := hd
    rw [po_phase2] at h
    rw [mbind_run_ok (show mgetState P = (Except.ok P, P) from rfl)] at h
    split at h
    next hcnd =>
      have hcnd2 := hcnd
      rw [Bool.and_eq_true] at hcnd2
      have hcp : pam ∈ r := by simpa using hcnd2.1
      rcases hev : eval_function ef pam kw P with ⟨er, P1⟩
      cases er with
      | error e =>
        rw [mbind_run_err hev] at h
        exact (err_ne_ok h).elim
      | ok vals =>
        rw [mbind_run_ok hev] at h
        rcases hchk : po_check vals kw new with e | u
        · rw [mbind_run_err (show mliftE (po_check vals kw new) P1 = (Except.error e, P1)
            from by rw [mliftE_applied, hchk])] at h
          exact (err_ne_ok h).elim
        · rw [mbind_run_ok (show mliftE (po_check vals kw new) P1 = (Except.ok u, P1)
            from by rw [mliftE_applied, hchk])] at h
          have h2 : po_phase2 ef tl r kw (aupdate new vals) P1 = (Except.ok new2, P2) := h
          obtain ⟨f, hsf, hkeys⟩ := eval_function_new_keys ef pam kw P vals P1
            (hik pam val (List.mem_cons_self _ _)) hev
          have hPF : P1.parameters = P.parameters := by
            have hfr := (eval_stack_frame ef).2.2.2.2.1 pam kw P
            rw [hev] at hfr
            exact hfr.2.1
          intro key hk
          rcases ih (aupdate new vals) P1
              (fun pam2 v2 hm => hik pam2 v2 (List.mem_cons_of_mem _ hm)) h2 key hk with
            hin | ⟨pam2, f2, hc2, hl2, hm2, hs2⟩
          · rcases mem_akeys_aupdate new vals key hin with h5 | h5
            · exact Or.inl h5
            · exact Or.inr ⟨pam, f, hcp, hsf, (hkeys key h5).1, (hkeys key h5).2⟩
          · exact Or.inr ⟨pam2, f2, hc2, by rw [← hPF]; exact hl2, hm2, hs2⟩
    next hcnd =>
      exact ih new P (fun pam2 v2 hm => hik pam2 v2 (List.mem_cons_of_mem _ hm)) h

/-- C6 (corrected): override propagation does terminate — its result is
stable under extra pass fuel — provided the dependency relation on STRIPPED
argument names is genuinely well-founded (witnessed by a rank function that
strictly decreases from a function-valued parameter to each of its
non-self arguments); the definition-time check alone does not guarantee
this, as it compares verbatim names. Each pass needs one unit of fuel,
plus one closing pass, so any fuel beyond `rank + 3` is enough. -/
theorem process_override_rank_stable (ef : Nat) (rank : String → Nat)
    (pf : Nat) (kwargs : AList PyVal) (restrict : Option (List String)) (P : Params)
    (hrank : ∀ p f a, alookup P.parameters p = some (SVal.fS f) → a ∈ f.args →
      ¬ (get_pam_name a = p) → rank a < rank p)
    (h1 : 1 ≤ pf)
    (h2 : ¬ (restrict.getD (akeys kwargs)) = [] → 2 ≤ pf)
    (h3 : ∀ p f, p ∈ restrict.getD (akeys kwargs) →
      alookup P.parameters p = some (SVal.fS f) → rank p + 3 ≤ pf) :
    process_override pf ef kwargs restrict P =
      process_override (pf+1) ef kwargs restrict P := by
  induction pf generalizing kwargs restrict P with
  | zero => exact absurd h1 (by omega)
  | succ pf ih =>
    by_cases hr0 : (restrict.getD (akeys kwargs)) = []
    · rw [process_override]
      conv_rhs => rw [process_override]
      rw [hr0]
      rw [if_pos (show List.length ([] : List String) = 0 from rfl),
        if_pos (show List.length ([] : List String) = 0 from rfl)]
    · have hr2 : 2 ≤ pf + 1 := h2 hr0
      rw [process_override]
      conv_rhs => rw [process_override]
      rw [if_neg (fun hlen => hr0 (List.length_eq_zero.mp hlen)),
        if_neg (fun hlen => hr0 (List.length_eq_zero.mp hlen))]
      rcases hp1 : po_phase1 ef kwargs (restrict.getD (akeys kwargs)) kwargs P with ⟨r1, P1⟩
      cases r1 with
      | error e => rw [mbind_run_err hp1, mbind_run_err hp1]
      | ok kw1 =>
        rw [mbind_run_ok hp1, mbind_run_ok hp1]
        rcases hp2 : po_phase2 ef kw1 (restrict.getD (akeys kwargs)) kw1 [] P1 with ⟨r2, P2⟩
        cases r2 with
        | error e => rw [mbind_run_err hp2, mbind_run_err hp2]
        | ok new =>
          rw [mbind_run_ok hp2, mbind_run_ok hp2]
          have hf1 : P1.parameters = P.parameters := by
            have hfr := po_phase1_frame ef kwargs (restrict.getD (akeys kwargs)) kwargs P
            rw [hp1] at hfr
            exact hfr.2.1
          have hf2 : P2.parameters = P1.parameters := by
            have hfr := po_phase2_frame ef kw1 (restrict.getD (akeys kwargs)) kw1 [] P1
            rw [hp2] at hfr
            exact hfr.2.1
          have hf : P2.parameters = P.parameters := hf2.trans hf1
          have hprov := po_phase2_new_keys ef kw1 (restrict.getD (akeys kwargs)) kw1 [] P1
            new P2 (fun pam v hm => acontains_of_mem kw1 pam v hm) hp2
          refine ih (aupdate kw1 new) (some (akeys new)) P2 ?_ ?_ ?_ ?_
          · intro p f a hp ha hs
            exact hrank p f a (hf ▸ hp) ha hs
          · omega
          · intro hne
            simp only [Option.getD_some] at hne
            obtain ⟨key, hkey⟩ := List.exists_mem_of_ne_nil _ hne
            rcases hprov key hkey with hfalse | ⟨pam, g, hmemr, hsf, hmem, hs⟩
            · simp [akeys] at hfalse
            · have := h3 pam g hmemr (hf1 ▸ hsf)
              omega
          · intro p f hpmem hpl
            simp only [Option.getD_some] at hpmem
            rcases hprov p hpmem with hfalse | ⟨pam, g, hmemr, hsf, hmem, hs⟩
            · simp [akeys] at hfalse
            · have hlt : rank p < rank pam := hrank pam g p (hf1 ▸ hsf) hmem hs
              have hle : rank pam + 3 ≤ pf + 1 := h3 pam g hmemr (hf1 ▸ hsf)
              omega

/-- The rank function of the C6 witness: the only stored function is at
`z`, whose non-self argument is `x`. -/
def rankC6 : String → Nat := fun s => if s = "z" then 1 else 0

/-- Witness for `process_override_rank_stable`: the C1 store, whose only
function `z = f(x, z)` has rank 1 over its argument `x` of rank 0, is
fuel-stable at 4 passes. -/
theorem process_override_rank_stable_witness :
    process_override 4 9 kwC1 none Pc1 = process_override 5 9 kwC1 none Pc1 := by
  refine process_override_rank_stable 9 rankC6 4 kwC1 none Pc1 ?_ (by decide)
    (fun _ => by decide) ?_
  · intro p f a hp ha hs
    have hp2 : (if "z" = p then some (SVal.fS fzC1) else (none : Option SVal)) =
        some (SVal.fS f) := hp
    split at hp2
    next hzp =>
      injection hp2 with hp2
      injection hp2 with hp2
      subst hp2
      subst hzp
      have ha2 : a ∈ ["x", "z"] := ha
      rcases List.mem_cons.mp ha2 with h5 | h5
      · subst h5
        decide
      · have h6 : a = "z" := by simpa using h5
        subst h6
        exact absurd (by decide) hs
    next hzp => exact Option.noConfusion hp2
  · intro p f hpm hpl
    have hp2 : (if "z" = p then some (SVal.fS fzC1) else (none : Option SVal)) =
        some (SVal.fS f) := hpl
    split at hp2
    next hzp =>
      subst hzp
      decide
    next hzp => exact Option.noConfusion hp2

/-! ### C5: the scaling cache is repopulated during `__scaling_set` -/

/-- The `s` unit, declared as the spec of the parameter `time` in the C5
store. -/
def sUnitC5 : Units := ⟨[("time", 1)], 1⟩

/-- The C5 store: the parameter name `time` carries the unit spec `s`; all
scaling tables and the cache start empty. -/
def Pc5 : Params := ⟨[("time", sUnitC5)], [], [], [], [], true, noSym⟩

/-- C5 (code_bug): `__scaling_set` clears the scaling cache BEFORE its
mutation loop, and the loop\'s own `__get_quantity` coercions repopulate the
cache from the pre-mutation tables; after the call returns, `unit_scaling`
answers the stale pre-mutation factor (equal to a recomputation against the
OLD tables) instead of a recomputation against the new ones — staleness is
observable, refuting the invariant. -/
theorem scaling_set_stale_cache :
    (scaling_set (ScalingArg.dictS [("time", PyVal.numP 5)]) Pc5).1 =
      Except.ok () ∧
    (match ((unit_scaling sUnitC5
          ((scaling_set (ScalingArg.dictS [("time", PyVal.numP 5)]) Pc5).2)).1,
        unit_scaling_calc
          ((scaling_set (ScalingArg.dictS [("time", PyVal.numP 5)]) Pc5).2)
          sUnitC5) with
      | (Except.ok cached, Except.ok fresh) => qeqb cached fresh
      | _ => true) = false ∧
    (match ((unit_scaling sUnitC5
          ((scaling_set (ScalingArg.dictS [("time", PyVal.numP 5)]) Pc5).2)).1,
        unit_scaling_calc Pc5 sUnitC5) with
      | (Except.ok cached, Except.ok old) => qeqb cached old
      | _ => false) = true :=
  ⟨rfl, rfl, rfl⟩

/-! ### C3: the definition-time cycle check -/

/-- Spec-side reading of the cycle check, written from the spec\'s words:
expanding the function\'s non-self argument names STRIPPED of their `_`
prefix through installed function-valued parameters re-enters a name
already on the expansion path. -/
inductive StrippedReenter (P : Params) : List String → String → VFunc → Prop where
  | direct (path : List String) (param : String) (f : VFunc) (a : String)
      (hmem : a ∈ f.args) (hself : ¬ (get_pam_name a = param))
      (hpath : get_pam_name a ∈ path) : StrippedReenter P path param f
  | step (path : List String) (param : String) (f : VFunc) (a : String) (g : VFunc)
      (hmem : a ∈ f.args) (hself : ¬ (get_pam_name a = param))
      (hst : alookup P.parameters (get_pam_name a) = some (SVal.fS g))
      (hrec : StrippedReenter P (path ++ [get_pam_name a]) (get_pam_name a) g) :
      StrippedReenter P path param f

/-- The function stored at `a` for the C3 runs: a function of `b`. -/
def faC3 : VFunc := ⟨["b"], fun _ => Except.ok (Val.numV 1)⟩

/-- The candidate definition for `b`: a function of `_a`, whose stripped
name `a` closes a cycle through the store. -/
def fbC3 : VFunc := ⟨["_a"], fun _ => Except.ok (Val.numV 2)⟩

/-- The C3 store: `a` installed as a function of `b`. -/
def PaC3 : Params := ⟨[], [("a", SVal.fS faC3)], [], [], [], true, noSym⟩

/-- C3 (counterexample): expanding the STRIPPED argument names of the
candidate `b = f(_a)` re-enters `b` through the installed `a = f(b)` — the
spec\'s description demands a failure — yet the source check compares the
VERBATIM argument `_a` against the store, finds no entry, and accepts the
definition. -/
theorem check_function_misses_stripped_cycle :
    check_function 9 PaC3 "b" fbC3 none = Except.ok fbC3 ∧
    StrippedReenter PaC3 ["b"] "b" fbC3 :=
  ⟨rfl,
   StrippedReenter.step ["b"] "b" fbC3 "_a" faC3 (List.mem_cons_self _ _) (by decide)
     rfl
     (StrippedReenter.direct (["b"] ++ [get_pam_name "_a"]) (get_pam_name "_a") faC3
       "b" (List.mem_cons_self _ _) (by decide) (by decide))⟩

/-- The check as the source performs it: expanding the VERBATIM non-self
argument names through installed function-valued parameters meets a
forbidden name. -/
inductive VerbatimReenter (P : Params) : List String → String → VFunc → Prop where
  | direct (fb : List String) (param : String) (f : VFunc) (a : String)
      (hmem : a ∈ f.args) (hself : ¬ (a = param)) (hfb : a ∈ fb) :
      VerbatimReenter P fb param f
  | step (fb : List String) (param : String) (f : VFunc) (a : String) (g : VFunc)
      (hmem : a ∈ f.args) (hself : ¬ (a = param))
      (hst : alookup P.parameters a = some (SVal.fS g))
      (hrec : VerbatimReenter P (fb ++ [param]) a g) :
      VerbatimReenter P fb param f

/-- A recursion error of the check exhibits a verbatim re-entry. -/
theorem check_function_sound : ∀ fuel : Nat,
    (∀ (P : Params) (param : String) (f : VFunc) (fb : List String) (b : String),
      check_function fuel P param f (some fb) = Except.error (Err.recursion b) →
      VerbatimReenter P fb param f) ∧
    (∀ (P : Params) (pending fb : List String) (b : String),
      check_function_args fuel P pending fb = Except.error (Err.recursion b) →
      ∃ a g, a ∈ pending ∧ alookup P.parameters a = some (SVal.fS g) ∧
        VerbatimReenter P fb a g) := by
  intro fuel
  induction fuel with
  | zero =>
    constructor
    · intro P param f fb b h
      rw [check_function] at h
      injection h with h
      exact Err.noConfusion h
    · intro P pending fb b h
      rw [check_function_args] at h
      injection h with h
      exact Err.noConfusion h
  | succ fuel ih =>
    obtain ⟨ih1, ih2⟩ := ih
    constructor
    · intro P param f fb b h
      rw [check_function] at h
      split at h
      next arg hfd =>
        injection h with h
        injection h with h
        subst h
        have hp := List.find?_some hfd
        have hmemfb := List.mem_of_find?_eq_some hfd
        have hmemf : arg ∈ f.args.filter (fun a => ¬ (a = param)) := by simpa using hp
        rcases List.mem_filter.mp hmemf with ⟨h1, h2⟩
        exact VerbatimReenter.direct fb param f arg h1 (by simpa using h2) hmemfb
      next hfd =>
        split at h
        next e heq =>
          injection h with h
          subst h
          obtain ⟨a, g, hmem, hst, hrec⟩ := ih2 P _ _ _ heq
          rcases List.mem_filter.mp hmem with ⟨h1, h2⟩
          exact VerbatimReenter.step fb param f a g h1 (by simpa using h2) hst hrec
        next heq => exact Except.noConfusion h
    · intro P pending fb b h
      match pending, h with
      | [], h =>
        rw [check_function_args] at h
        exact Except.noConfusion h
      | arg :: rest, h =>
        rw [check_function_args] at h
        rcases hl : alookup P.parameters arg with _ | sv
        · simp only [hl] at h
          obtain ⟨a, g, hm, hst, hrec⟩ := ih2 P rest fb b h
          exact ⟨a, g, List.mem_cons_of_mem _ hm, hst, hrec⟩
        · cases sv with
          | qS q =>
            simp only [hl] at h
            obtain ⟨a, g, hm, hst, hrec⟩ := ih2 P rest fb b h
            exact ⟨a, g, List.mem_cons_of_mem _ hm, hst, hrec⟩
          | fS g =>
            simp only [hl] at h
            split at h
            next e heq =>
              injection h with h
              subst h
              exact ⟨arg, g, List.mem_cons_self _ _, hl,
                ih1 P arg g fb _ heq⟩
            next heq =>
              obtain ⟨a, g2, hm, hst, hrec⟩ := ih2 P rest fb b h
              exact ⟨a, g2, List.mem_cons_of_mem _ hm, hst, hrec⟩

/-- A successful run of the argument loop certifies every function-valued
member: some amount of fuel checks it successfully. -/
theorem check_args_ok_members : ∀ fuel : Nat,
    ∀ (P : Params) (pending fb : List String),
    check_function_args fuel P pending fb = Except.ok () →
    ∀ a g, a ∈ pending → alookup P.parameters a = some (SVal.fS g) →
      ∃ fuel2 gr, check_function fuel2 P a g (some fb) = Except.ok gr := by
  intro fuel
  induction fuel with
  | zero =>
    intro P pending fb h
    rw [check_function_args] at h
    exact Except.noConfusion h
  | succ fuel ih =>
    intro P pending fb h a g ha hg
    match pending, ha, h with
    | p :: rest, ha, h =>
      rw [check_function_args] at h
      rcases List.mem_cons.mp ha with he | hrest
      · subst he
        simp only [hg] at h
        split at h
        next e heq => exact Except.noConfusion h
        next gr heq => exact ⟨fuel, gr, heq⟩
      · rcases hl : alookup P.parameters p with _ | sv
        · simp only [hl] at h
          exact ih P rest fb h a g hrest hg
        · cases sv with
          | qS q =>
            simp only [hl] at h
            exact ih P rest fb h a g hrest hg
          | fS g2 =>
            simp only [hl] at h
            split at h
            next e heq => exact Except.noConfusion h
            next gr heq => exact ih P rest fb h a g hrest hg

/-- A verbatim re-entry dooms the check at that forbidden list: no amount
of fuel makes it succeed. -/
theorem reenter_never_ok (P : Params) (fb : List String) (param : String)
    (f : VFunc) (hder : VerbatimReenter P fb param f) :
    ∀ fuel g2, ¬ (check_function fuel P param f (some fb) = Except.ok g2) := by
  induction hder with
  | direct fb param f a hmem hself hfb =>
    intro fuel g2 hok
    match fuel, hok with
    | 0, hok => exact Except.noConfusion hok
    | (fuel+1), hok =>
      rw [check_function] at hok
      split at hok
      next arg hfd => exact Except.noConfusion hok
      next hfd =>
        have hainf : a ∈ f.args.filter (fun x => ¬ (x = param)) :=
          List.mem_filter.mpr ⟨hmem, by simpa using hself⟩
        have := List.find?_eq_none.mp hfd a hfb
        exact this (by simpa using hainf)
  | step fb param f a g hmem hself hst hrec ih =>
    intro fuel g2 hok
    match fuel, hok with
    | 0, hok => exact Except.noConfusion hok
    | (fuel+1), hok =>
      rw [check_function] at hok
      split at hok
      next arg hfd => exact Except.noConfusion hok
      next hfd =>
        split at hok
        next e heq => exact Except.noConfusion hok
        next heq =>
          have hainf : a ∈ f.args.filter (fun x => ¬ (x = param)) :=
            List.mem_filter.mpr ⟨hmem, by simpa using hself⟩
          obtain ⟨fuel2, gr, hok2⟩ :=
            check_args_ok_members fuel P _ (fb ++ [param]) heq a g hainf hst
          exact ih fuel2 gr hok2

/-- C3 (corrected): the check fails on re-entry of the VERBATIM (not
stripped) argument names: a recursion error exhibits a verbatim re-entry
through the store, a verbatim re-entry reachable from a non-self argument
makes every run of the check fail, and when the check fails the function is
never installed (the assignment returns the error with the store
untouched). -/
theorem check_function_amended (P : Params) (param : String) (f : VFunc) :
    (∀ fuel b, check_function fuel P param f none = Except.error (Err.recursion b) →
      ∃ a g, a ∈ f.args ∧ ¬ (a = param) ∧
        alookup P.parameters a = some (SVal.fS g) ∧ VerbatimReenter P [param] a g) ∧
    (∀ a g, a ∈ f.args → ¬ (a = param) →
      alookup P.parameters a = some (SVal.fS g) → VerbatimReenter P [param] a g →
      ∀ fuel g2, ¬ (check_function fuel P param f none = Except.ok g2)) ∧
    (∀ cf e, check_function cf P param f none = Except.error e →
      set_one cf param (PyVal.funcP f) P = (Except.error e, P)) := by
  refine ⟨?_, ?_, ?_⟩
  · intro fuel b h
    match fuel, h with
    | 0, h =>
      rw [check_function] at h
      injection h with h
      exact Err.noConfusion h
    | (fuel+1), h =>
      rw [check_function] at h
      split at h
      next e heq =>
        injection h with h
        subst h
        obtain ⟨a, g, hmem, hst, hrec⟩ := (check_function_sound fuel).2 P _ _ _ heq
        rcases List.mem_filter.mp hmem with ⟨h1, h2⟩
        exact ⟨a, g, h1, by simpa using h2, hst, hrec⟩
      next heq => exact Except.noConfusion h
  · intro a g ha hself hst hrec fuel g2 hok
    match fuel, hok with
    | 0, hok => exact Except.noConfusion hok
    | (fuel+1), hok =>
      rw [check_function] at hok
      split at hok
      next e heq => exact Except.noConfusion hok
      next heq =>
        have hainf : a ∈ f.args.filter (fun x => ¬ (x = param)) :=
          List.mem_filter.mpr ⟨ha, by simpa using hself⟩
        obtain ⟨fuel2, gr, hok2⟩ :=
          check_args_ok_members fuel P _ [param] heq a g hainf hst
        exact reenter_never_ok P [param] a g hrec fuel2 gr hok2
  · intro cf e hchk
    rw [set_one]
    rw [mbind_run_ok (show mgetState P = (Except.ok P, P) from rfl)]
    rw [mbind_run_ok (show mliftE (get_function P.sym (PyVal.funcP f)) P =
      (Except.ok f, P) from rfl)]
    rw [mbind_run_err (show mliftE (check_function cf P param f none) P =
      (Except.error e, P) from by rw [mliftE_applied, hchk])]

end Parampy
